import Mathlib

/-!
# Verification of the moq runtime model

A shallow embedding of the moq (Media over QUIC) runtime, translated from the
Rust sources under `rs/`:

* `moq-lite/src/model/track.rs` — the track producer/consumer cache,
* `moq-lite/src/server.rs`, `client.rs`, `version.rs` — version negotiation,
* `moq-lite/src/ietf/publisher.rs`, `lite/publisher.rs` — the per-subscription
  group serving loops,
* `hang/src/container/{producer,consumer,frame}.rs` — the ordered media layer,
* `hang/src/catalog/{producer,root}.rs` — the JSON catalog track.

Asynchronous loops are embedded as explicit step functions on state records;
panics (`assert!`) are embedded as `Option`/`Except` failures. Machine
integers (`u64` sequence numbers, microsecond timestamps) are embedded as
`Nat`; the source never relies on wraparound for these.
-/

namespace Moq

/-- Error kinds of `moq_lite::Error`.

Modelled from the spec: the `Error` enum itself (moq-lite's `error.rs`) is not
in the snapshot; §7 gives the taxonomy (Cancel, Transport, Decode, Unsupported,
VersionNegotiationFailed, UnknownAlpn, NotFound, Unauthorized, Duplicate,
TooMany). `version` is the `Error::Version` ("VersionNegotiationFailed")
variant used by `server.rs` / `client.rs`. -/
inductive Error where
  | cancel
  | transport
  | decode
  | unsupported
  | version
  | unknownAlpn
  | notFound
  | unauthorized
  | duplicate
  | tooMany
  deriving DecidableEq, Repr

/-- Modelled from the spec: `model/group.rs` is absent from the snapshot.
§3: `Group { sequence: 64-bit, frames: ordered append-only list }`. At the
track-cache level only the sequence number of the group handle is consulted
(`group.info.sequence`), so the embedding of a `GroupConsumer` handle keeps the
sequence together with the frame payloads that were written to the group. -/
structure GroupInfo where
  sequence : Nat
  frames : List (List Nat) := []
  deriving DecidableEq, Repr

/-- `MAX_CACHE` from `model/track.rs` (30 s), in abstract instant ticks
(milliseconds here; the claims do not depend on the unit). -/
def MAX_CACHE : Nat := 30000

/-- The terminal status stored in `TrackState::closed`, i.e. the payload of
the Rust `Option<Result<()>>`: `.ok` for a clean `close()`, `.error e` for
`abort(e)`. -/
inductive TrackStatus where
  | ok
  | error (e : Error)
  deriving DecidableEq, Repr

/-- `TrackState` from `model/track.rs`. `groups` is the `VecDeque` of
`(ingest instant, GroupConsumer)` with the front at the head of the list;
`closed` is `Option<Result<()>>` (`none` = open, `some .ok` = closed
cleanly, `some (.error e)` = aborted). -/
structure TrackState where
  groups : List (Nat × GroupInfo) := []
  closed : Option TrackStatus := none
  offset : Nat := 0
  max_sequence : Option Nat := none
  drop_sequence : Option Nat := none
  deriving DecidableEq, Repr

/-- The `while let` loop of `TrackState::trim`, structurally recursive on the
deque: pop expired groups from the front while their age exceeds `MAX_CACHE`,
accumulating `drop_sequence` and `offset`. -/
def trimLoop (now : Nat) :
    List (Nat × GroupInfo) → Option Nat → Nat →
      List (Nat × GroupInfo) × Option Nat × Nat
  | [], dropSeq, offset => ([], dropSeq, offset)
  | (timestamp, group) :: rest, dropSeq, offset =>
    if MAX_CACHE < now - timestamp then
      trimLoop now rest (some (Nat.max (dropSeq.getD 0) group.sequence)) (offset + 1)
    else ((timestamp, group) :: rest, dropSeq, offset)

/-- `TrackState::trim`: pop expired groups from the front while their age
exceeds `MAX_CACHE`, recording the largest dropped sequence. -/
def TrackState.trim (s : TrackState) (now : Nat) : TrackState :=
  let r := trimLoop now s.groups s.drop_sequence s.offset
  { s with groups := r.1, drop_sequence := r.2.1, offset := r.2.2 }

/-- `TrackProducer::insert_group`. The `assert!(state.closed.is_none())` is
embedded as `none` (panic). The returned `Bool` is the value returned by the
`send_if_modified` closure, which in the source is the literal `true`. -/
def TrackProducer.insert_group (s : TrackState) (now : Nat) (group : GroupInfo) :
    Option (TrackState × Bool) :=
  if s.closed.isSome then none
  else
    let s := s.trim now
    some
      ({ s with
          groups := s.groups ++ [(now, group)]
          max_sequence := some (Nat.max (s.max_sequence.getD 0) group.sequence) },
        true)

/-- `TrackProducer::create_group`: produce the group, insert its consumer, and
return the producer only when `insert_group` reported `true`
(`.then_some(group)` in the source). -/
def TrackProducer.create_group (s : TrackState) (now : Nat) (info : GroupInfo) :
    Option (TrackState × Option GroupInfo) :=
  (TrackProducer.insert_group s now info).map fun r =>
    (r.1, if r.2 then some info else none)

/-- `TrackProducer.append_group`: create a group with sequence
`max_sequence + 1` (or `0` if none), after trimming. Panics (= `none`) when
the track is closed. -/
def TrackProducer.append_group (s : TrackState) (now : Nat) :
    Option (TrackState × GroupInfo) :=
  if s.closed.isSome then none
  else
    let s := s.trim now
    let sequence := match s.max_sequence with
      | some q => q + 1
      | none => 0
    let group : GroupInfo := { sequence := sequence }
    some
      ({ s with
          groups := s.groups ++ [(now, group)]
          max_sequence := some sequence },
        group)

/-- `TrackProducer.write_frame`: `append_group`, write one frame into the new
group, `close` it. The frame bytes end up in the group that was appended. -/
def TrackProducer.write_frame (s : TrackState) (now : Nat) (frame : List Nat) :
    Option TrackState :=
  (TrackProducer.append_group s now).map fun r =>
    { r.1 with
        groups := r.1.groups.dropLast ++ [(now, { r.2 with frames := [frame] })] }

/-- The predicate `TrackConsumer::get_group` waits on (`wait_for`): the track
is closed, or the sequence is at or below `drop_sequence`, or the group is in
the cache. -/
def TrackConsumer.get_group_ready (s : TrackState) (sequence : Nat) : Bool :=
  s.closed.isSome ||
    (match s.drop_sequence with
      | some d => decide (sequence ≤ d)
      | none => false) ||
    s.groups.any fun g => g.2.sequence == sequence

/-- The body of `TrackConsumer::get_group` once `wait_for` has settled: return
the cached group if present, otherwise dispatch on the closed status
(`Ok(None)` on clean close, the error on abort, `Ok(None)` when merely
dropped). -/
def TrackConsumer.get_group (s : TrackState) (sequence : Nat) :
    Except Error (Option GroupInfo) :=
  match s.groups.find? (fun g => g.2.sequence == sequence) with
  | some g => .ok (some g.2)
  | none =>
    match s.closed with
    | some .ok => .ok none
    | some (.error e) => .error e
    | none => .ok none

/-- `TrackConsumer::get_group` including the cancellation path: when the watch
channel is cancelled (`wait_for` returns `Err`), the call returns
`Err(Error::Cancel)`. -/
def TrackConsumer.get_group_outcome (cancelled : Bool) (s : TrackState) (sequence : Nat) :
    Except Error (Option GroupInfo) :=
  if cancelled then .error .cancel else TrackConsumer.get_group s sequence

end Moq

section TrackTheorems

open Moq

/-- Claim C1: the claim states that `insert_group` returns `true` iff the
inserted group is the newest and that `create_group` returns `Some` only when
the sequence becomes the new max. On the code this is false at a concrete
input: starting from the empty track, inserting a group with sequence 5 and
then a group with sequence 3, the second `insert_group` still returns `true`
(the `send_if_modified` closure returns the literal `true` unconditionally)
and `create_group` still returns `Some`, although 3 is below the accepted
maximum 5. -/
theorem C1_insert_group_not_newest_still_true :
    ∃ s₁ : Moq.TrackState,
      Moq.TrackProducer.insert_group {} 0 { sequence := 5 } = some (s₁, true) ∧
      s₁.max_sequence = some 5 ∧
      (∃ s₂, Moq.TrackProducer.insert_group s₁ 0 { sequence := 3 } = some (s₂, true) ∧
        s₂.max_sequence = some 5) ∧
      (∃ s₂, Moq.TrackProducer.create_group s₁ 0 { sequence := 3 } =
          some (s₂, some { sequence := 3 }) ∧ 3 < 5) :=
  ⟨_, rfl, rfl, ⟨_, rfl, rfl⟩, ⟨_, rfl, by norm_num⟩⟩

/-- Claim C6: once the `wait_for` of `get_group` has settled (or the channel
was cancelled), the result is: the group while it is still cached; `Ok(None)`
when the group is not cached and the track closed cleanly, or when it was
evicted (`drop_sequence ≥ sequence`) with the track still open; the abort
error when the track was aborted (and the group is not cached); and
`Err(Cancel)` when the consumer is cancelled. -/
theorem C6_get_group_cases (s : Moq.TrackState) (sequence : Nat) :
    (Moq.TrackConsumer.get_group_outcome true s sequence = .error .cancel) ∧
    (∀ entry ∈ s.groups, entry.2.sequence = sequence →
      ∃ g, Moq.TrackConsumer.get_group_outcome false s sequence = .ok (some g) ∧
        g.sequence = sequence) ∧
    ((∀ entry ∈ s.groups, entry.2.sequence ≠ sequence) →
      ((s.closed = some .ok →
          Moq.TrackConsumer.get_group_outcome false s sequence = .ok none) ∧
        (∀ e, s.closed = some (.error e) →
          Moq.TrackConsumer.get_group_outcome false s sequence = .error e) ∧
        (s.closed = none →
          Moq.TrackConsumer.get_group_outcome false s sequence = .ok none))) := by
  refine ⟨rfl, ?_, ?_⟩
  · intro entry hmem hseq
    have hfind : ∃ g, s.groups.find? (fun g => g.2.sequence == sequence) = some g ∧
        g.2.sequence = sequence := by
      have : (s.groups.find? (fun g => g.2.sequence == sequence)).isSome := by
        rw [List.find?_isSome]
        exact ⟨entry, hmem, by simpa using hseq⟩
      rcases Option.isSome_iff_exists.mp this with ⟨g, hg⟩
      exact ⟨g, hg, by simpa using List.find?_some hg⟩
    rcases hfind with ⟨g, hg, hgs⟩
    refine ⟨g.2, ?_, hgs⟩
    simp [Moq.TrackConsumer.get_group_outcome, Moq.TrackConsumer.get_group, hg]
  · intro hnone
    have hfind : s.groups.find? (fun g => g.2.sequence == sequence) = none := by
      rw [List.find?_eq_none]
      intro g hg
      simpa using hnone g hg
    refine ⟨?_, ?_, ?_⟩
    · intro hc
      simp [Moq.TrackConsumer.get_group_outcome, Moq.TrackConsumer.get_group, hfind, hc]
    · intro e hc
      simp [Moq.TrackConsumer.get_group_outcome, Moq.TrackConsumer.get_group, hfind, hc]
    · intro hc
      simp [Moq.TrackConsumer.get_group_outcome, Moq.TrackConsumer.get_group, hfind, hc]

/-- Claim C6 witness: evaluate the cases at concrete states. -/
theorem C6_get_group_cases_witness :
    ∃ g : Moq.GroupInfo,
      Moq.TrackConsumer.get_group_outcome false
        { groups := [(0, { sequence := 7 })] } 7 = .ok (some g) ∧ g.sequence = 7 := by
  have h := C6_get_group_cases { groups := [(0, { sequence := 7 })] } 7
  rcases h.2.1 (0, { sequence := 7 }) (by simp) rfl with ⟨g, hg, hgs⟩
  exact ⟨g, hg, hgs⟩

/-- Claim C8: calling `insert_group`, `create_group`, `append_group` or
`write_frame` on a closed track panics (the embedded panic is `none`), and
when the track is not closed the assertion never fires (the calls return
`some`). -/
theorem C8_closed_track_operations_panic (s : Moq.TrackState) (now : Nat)
    (group : Moq.GroupInfo) (frame : List Nat) :
    (s.closed.isSome →
      Moq.TrackProducer.insert_group s now group = none ∧
      Moq.TrackProducer.create_group s now group = none ∧
      Moq.TrackProducer.append_group s now = none ∧
      Moq.TrackProducer.write_frame s now frame = none) ∧
    (s.closed = none →
      (Moq.TrackProducer.insert_group s now group).isSome ∧
      (Moq.TrackProducer.create_group s now group).isSome ∧
      (Moq.TrackProducer.append_group s now).isSome ∧
      (Moq.TrackProducer.write_frame s now frame).isSome) := by
  constructor
  · intro hc
    refine ⟨?_, ?_, ?_, ?_⟩ <;>
      simp [Moq.TrackProducer.insert_group, Moq.TrackProducer.create_group,
        Moq.TrackProducer.append_group, Moq.TrackProducer.write_frame, hc]
  · intro hc
    refine ⟨?_, ?_, ?_, ?_⟩ <;>
      simp [Moq.TrackProducer.insert_group, Moq.TrackProducer.create_group,
        Moq.TrackProducer.append_group, Moq.TrackProducer.write_frame, hc]

/-- Claim C8 witness: a closed track panics on `insert_group`, an open track
does not. -/
theorem C8_closed_track_operations_panic_witness :
    Moq.TrackProducer.insert_group
      { closed := some .ok } 0 { sequence := 0 } = none ∧
    (Moq.TrackProducer.insert_group {} 0 { sequence := 0 }).isSome := by
  refine ⟨((C8_closed_track_operations_panic
      { closed := some .ok } 0 { sequence := 0 } []).1 (by decide)).1, ?_⟩
  exact ((C8_closed_track_operations_panic {} 0 { sequence := 0 } []).2 rfl).1

end TrackTheorems

namespace Moq.IetfPublisher

/-- The state of the `run_track` loop in `ietf/publisher.rs`: at most two
per-group serving futures are held, in the `old_group`/`new_group` slots. In
the source the future and its sequence are updated in lockstep
(`old_group`/`old_sequence`, `new_group`/`new_sequence`); the embedding keeps
one `Option` per slot, holding the sequence served by the in-flight future. -/
structure ServeState where
  old_sequence : Option Nat := none
  new_sequence : Option Nat := none
  deriving DecidableEq, Repr

/-- The events the `tokio::select!` of `run_track` reacts to: a freshly
delivered group from `track.next_group()`, or completion of the future in the
`old_group` / `new_group` slot. -/
inductive ServeEvent where
  | arrive (sequence : Nat)
  | oldDone
  | newDone
  deriving DecidableEq, Repr

/-- One iteration of the `run_track` loop of `ietf/publisher.rs`:

* `oldDone`: the old future finished, clear the slot;
* `newDone`: the new future finished, move the old slot into the new slot
  (`new_group = old_group; new_sequence = old_sequence`) and clear the old;
* `arrive q`: groups older than `old_sequence` are skipped; otherwise the old
  future is dropped (cancelled), and the fresh future is installed as the new
  slot when `q` is the latest (promoting the previous new slot to old) or as
  the old slot otherwise. -/
def step (s : ServeState) : ServeEvent → ServeState
  | .oldDone => { s with old_sequence := none }
  | .newDone => { old_sequence := none, new_sequence := s.old_sequence }
  | .arrive q =>
    if q < s.old_sequence.getD 0 then s
    else if s.new_sequence.getD 0 ≤ q then
      { old_sequence := s.new_sequence, new_sequence := some q }
    else
      { old_sequence := some q, new_sequence := s.new_sequence }

/-- Run the loop from its initial state (`old_group = None`,
`new_group = None`). -/
def run (events : List ServeEvent) : ServeState :=
  events.foldl step {}

/-- The number of in-flight per-group serving futures held by the loop. -/
def ServeState.inflight (s : ServeState) : Nat :=
  (if s.old_sequence.isSome then 1 else 0) + (if s.new_sequence.isSome then 1 else 0)

end Moq.IetfPublisher

namespace Moq.LitePublisher

/-- The events of the `run_track` loop in `lite/publisher.rs`: a freshly
delivered group (its `serve_group` future is pushed into the
`FuturesUnordered`), or completion of the serving future for a sequence
(`tasks.next()` consumes it). -/
inductive ServeEvent where
  | arrive (sequence : Nat)
  | finish (sequence : Nat)
  deriving DecidableEq, Repr

/-- One iteration of the `run_track` loop of `lite/publisher.rs`: every
arriving group is pushed into the `FuturesUnordered` (`tasks.push(...)`), and
a future leaves the set only when it completes. No future is ever dropped
early by this loop. -/
def step (tasks : List Nat) : ServeEvent → List Nat
  | .arrive q => tasks ++ [q]
  | .finish q => tasks.erase q

/-- The sequences with an in-flight `serve_group` future after processing the
events, starting from the empty `FuturesUnordered`. -/
def run (events : List ServeEvent) : List Nat :=
  events.foldl step []

end Moq.LitePublisher

section PublisherTheorems

/-- Claim C2 counterexample: the claim (at most two in-flight per-group
serving futures per subscription, for both cited serving loops) is false for
the `run_track` loop of `lite/publisher.rs`: after three groups arrive with
none finished, three `serve_group` futures are in flight. -/
theorem C2_lite_three_groups_in_flight :
    (Moq.LitePublisher.run [.arrive 0, .arrive 1, .arrive 2]).length = 3 ∧
      ¬ (Moq.LitePublisher.run [.arrive 0, .arrive 1, .arrive 2]).length ≤ 2 := by
  constructor <;> decide

/-- Claim C2 (amended): in the `run_track` loop of `ietf/publisher.rs`, at
every reachable state the number of in-flight per-group serving futures is at
most two; the lite publisher's loop has no such bound. -/
theorem C2_ietf_at_most_two_inflight (events : List Moq.IetfPublisher.ServeEvent) :
    (Moq.IetfPublisher.run events).inflight ≤ 2 := by
  have h : ∀ s : Moq.IetfPublisher.ServeState, s.inflight ≤ 2 := by
    intro s
    unfold Moq.IetfPublisher.ServeState.inflight
    cases s.old_sequence.isSome <;> cases s.new_sequence.isSome <;> simp
  exact h _

end PublisherTheorems

namespace Moq

/-- `ietf::Version` from `ietf/version.rs`. -/
inductive IetfVersion where
  | draft14
  | draft15
  deriving DecidableEq, Repr

/-- `lite::Version` from `lite/version.rs`. -/
inductive LiteVersion where
  | draft01
  | draft02
  | draft03
  deriving DecidableEq, Repr

/-- The `coding::Version` wire tag of an `ietf::Version`
(`Version as u64`). -/
def IetfVersion.coding : IetfVersion → Nat
  | .draft14 => 0xff00000e
  | .draft15 => 0xff00000f

/-- The `coding::Version` wire tag of a `lite::Version`
(`Version as u64`). -/
def LiteVersion.coding : LiteVersion → Nat
  | .draft01 => 0xff0dad01
  | .draft02 => 0xff0dad02
  | .draft03 => 0xff0dad03

/-- `TryFrom<coding::Version> for ietf::Version`. -/
def IetfVersion.tryFrom (value : Nat) : Option IetfVersion :=
  if value = IetfVersion.draft14.coding then some .draft14
  else if value = IetfVersion.draft15.coding then some .draft15
  else none

/-- `TryFrom<coding::Version> for lite::Version`. -/
def LiteVersion.tryFrom (value : Nat) : Option LiteVersion :=
  if value = LiteVersion.draft01.coding then some .draft01
  else if value = LiteVersion.draft02.coding then some .draft02
  else if value = LiteVersion.draft03.coding then some .draft03
  else none

/-- `Version` from `version.rs`, the union of the two families. -/
inductive Version where
  | ietf (v : IetfVersion)
  | lite (v : LiteVersion)
  deriving DecidableEq, Repr

/-- `TryFrom<coding::Version> for Version`: try the IETF family first, then
lite (`or_else` in the source). -/
def Version.tryFrom (value : Nat) : Option Version :=
  match IetfVersion.tryFrom value with
  | some v => some (.ietf v)
  | none => (LiteVersion.tryFrom value).map .lite

/-- `From<Version> for coding::Version`. -/
def Version.coding : Version → Nat
  | .ietf v => v.coding
  | .lite v => v.coding

/-- `NEGOTIATED` from `version.rs`: the versions negotiated over SETUP,
ordered by preference. -/
def NEGOTIATED : List Version := [.lite .draft02, .lite .draft01, .ietf .draft14]

/-- The version-selection expression of `Server::accept` (`server.rs`):
`client.versions.iter().flat_map(try_from).find(|v| supported.contains(v))`. -/
def Server.chooseVersion (offered : List Nat) (supported : List Version) : Option Version :=
  (offered.filterMap Version.tryFrom).find? fun v => decide (v ∈ supported)

/-- The outcome of the SETUP half of `Server::accept`: either a
`setup::Server` reply is sent carrying the chosen version's wire tag and the
corresponding `lite::start`/`ietf::start` is invoked, or the handshake fails
with an error before any publisher/subscriber task is started. -/
inductive AcceptOutcome where
  | started (setupServerVersion : Nat) (v : Version)
  | failed (e : Error)
  deriving DecidableEq, Repr

/-- The SETUP path of `Server::accept` (reached for ALPN `moql` or no ALPN,
where `supported = NEGOTIATED`, and for the single-version ALPN branches):
choose the first client-offered version the server supports, reply with it in
`setup::Server`, and start the session; on no match, fail with
`Error::Version` (`ok_or(Error::Version)?`) before the reply or any start. -/
def Server.accept_setup (supported : List Version) (clientVersions : List Nat) :
    AcceptOutcome :=
  match Server.chooseVersion clientVersions supported with
  | some v => .started v.coding v
  | none => .failed .version

/-- The claim's selection rule, written from the spec's words: "selects the
first version in the client's list that the server supports". This is the
spec-side definition compared against `Server.chooseVersion` from the
source. -/
def firstSupported (supported : List Version) : List Nat → Option Version
  | [] => none
  | t :: rest =>
    match Version.tryFrom t with
    | some v => if v ∈ supported then some v else firstSupported supported rest
    | none => firstSupported supported rest

end Moq

section VersionTheorems

/-- The source's `find?` over `filterMap` equals the spec's first-supported
recursion. -/
theorem chooseVersion_eq_firstSupported (offered : List Nat)
    (supported : List Moq.Version) :
    Moq.Server.chooseVersion offered supported = Moq.firstSupported supported offered := by
  induction offered with
  | nil => rfl
  | cons t rest ih =>
    unfold Moq.Server.chooseVersion Moq.firstSupported
    cases htf : Moq.Version.tryFrom t with
    | none =>
      simp only [List.filterMap_cons, htf]
      exact ih
    | some v =>
      simp only [List.filterMap_cons, htf]
      by_cases hv : v ∈ supported
      · rw [List.find?_cons_of_pos _ (by simpa using hv)]
        simp [hv]
      · rw [List.find?_cons_of_neg _ (by simpa using hv)]
        simp only [hv, if_false]
        exact ih

/-- Claim C3: on the SETUP path, the server selects the first version of the
client's preference-ordered list that it supports and replies with exactly
that version in SETUP_SERVER; when no offered version is supported, the
handshake fails with the version-negotiation error (`Error::Version`) and no
publisher/subscriber tasks are started (the outcome is not `started`). -/
theorem C3_server_setup_negotiation (offered : List Nat) (supported : List Moq.Version) :
    (∀ v, Moq.firstSupported supported offered = some v →
      Moq.Server.accept_setup supported offered = .started v.coding v) ∧
    (Moq.firstSupported supported offered = none →
      Moq.Server.accept_setup supported offered = .failed .version ∧
        ∀ tag v, Moq.Server.accept_setup supported offered ≠ .started tag v) := by
  constructor
  · intro v hv
    unfold Moq.Server.accept_setup
    rw [chooseVersion_eq_firstSupported, hv]
  · intro hnone
    have h : Moq.Server.accept_setup supported offered = .failed .version := by
      unfold Moq.Server.accept_setup
      rw [chooseVersion_eq_firstSupported, hnone]
    exact ⟨h, fun tag v hcon => by rw [h] at hcon; exact Moq.AcceptOutcome.noConfusion hcon⟩

/-- Claim C3 witness: the spec's S6 scenario. A client offering
[Lite-02, Lite-01] against `NEGOTIATED` gets Lite-02 back; a client offering
only an unknown tag fails with `Error::Version` and nothing is started. -/
theorem C3_server_setup_negotiation_witness :
    Moq.Server.accept_setup Moq.NEGOTIATED [0xff0dad02, 0xff0dad01] =
      .started 0xff0dad02 (.lite .draft02) ∧
    Moq.Server.accept_setup Moq.NEGOTIATED [0x12345] = .failed .version := by
  constructor
  · exact (C3_server_setup_negotiation [0xff0dad02, 0xff0dad01] Moq.NEGOTIATED).1
      (.lite .draft02) (by decide)
  · exact ((C3_server_setup_negotiation [0x12345] Moq.NEGOTIATED).2 (by decide)).1

namespace Hang

/-- The `hang::Error` variants relevant to the container layer
(`hang/src/error.rs`); the variants wrapping external library errors
(JSON, hex, URL, ...) are unreachable in the embedded operations and
omitted. -/
inductive HangError where
  | missingKeyframe
  | timestampBackwards
  deriving DecidableEq, Repr

/-- `hang::container::Frame`: a presentation timestamp in microseconds
(`Timescale<1_000_000>`), the keyframe flag, and the codec payload bytes. -/
structure Frame where
  timestamp : Nat
  keyframe : Bool
  payload : List Nat
  deriving DecidableEq, Repr

/-- `OrderedProducer` from `hang/src/container/producer.rs`. The wrapped
`moq_lite::TrackProducer` is viewed through the groups this producer created
on it: `closedGroups` are the groups already closed (in creation order),
`group` is the currently open group (`self.group`), each a list of the frames
written to it in order. `keyframe` is the timestamp of the last keyframe
(`self.keyframe`). -/
structure OrderedProducer where
  closedGroups : List (List Frame) := []
  group : Option (List Frame) := none
  keyframe : Option Nat := none
  deriving DecidableEq, Repr

/-- The second half of `OrderedProducer::write`: take the current group
(creating one via `track.append_group()` when the frame is a keyframe, and
failing with `MissingKeyframe` otherwise), encode the frame into it, and put
it back. `Frame::encode` appends exactly one frame to the group. -/
def OrderedProducer.writeIntoGroup (s : OrderedProducer) (frame : Frame) :
    Except HangError OrderedProducer :=
  match s.group with
  | some g => .ok { s with group := some (g ++ [frame]) }
  | none =>
    if frame.keyframe then .ok { s with group := some [frame] }
    else .error .missingKeyframe

/-- `OrderedProducer::write` from `hang/src/container/producer.rs`. On a
keyframe: close the current group, reject a timestamp below the previous
keyframe's (`TimestampBackwards`), record the keyframe timestamp, then open a
new group with this frame. On a non-keyframe: append to the current group,
failing with `MissingKeyframe` when none is open. -/
def OrderedProducer.write (s : OrderedProducer) (frame : Frame) :
    Except HangError OrderedProducer :=
  if frame.keyframe then
    let s1 := match s.group with
      | some g => { s with closedGroups := s.closedGroups ++ [g], group := none }
      | none => s
    match s1.keyframe with
    | some k =>
      if frame.timestamp < k then .error .timestampBackwards
      else OrderedProducer.writeIntoGroup { s1 with keyframe := some frame.timestamp } frame
    | none => OrderedProducer.writeIntoGroup { s1 with keyframe := some frame.timestamp } frame
  else OrderedProducer.writeIntoGroup s frame

/-- Iterated `OrderedProducer::write`. -/
def OrderedProducer.writeAll (s : OrderedProducer) :
    List Frame → Except HangError OrderedProducer
  | [] => .ok s
  | f :: rest =>
    match s.write f with
    | .ok t => t.writeAll rest
    | .error e => .error e

/-- All groups this producer created on the track, closed ones first, then the
currently open one. -/
def OrderedProducer.allGroups (s : OrderedProducer) : List (List Frame) :=
  s.closedGroups ++ s.group.toList

/-- Every group created by the producer starts with a keyframe. -/
def OrderedProducer.groupsStartWithKeyframe (s : OrderedProducer) : Prop :=
  ∀ g ∈ s.allGroups, ∃ f rest, g = f :: rest ∧ f.keyframe = true

/-- The first frame of the list is a keyframe (vacuous for the empty list). -/
def firstKeyframe : List Frame → Prop
  | [] => True
  | f :: _ => f.keyframe = true

/-- The timestamps of the keyframes of the list, in order. -/
def keyframeTimestamps (fs : List Frame) : List Nat :=
  (fs.filter fun f => f.keyframe).map fun f => f.timestamp

end Hang

section OrderedProducerTheorems

open Hang

/-- A successful `write` preserves "every created group starts with a
keyframe". -/
theorem write_groupsStartWithKeyframe {s t : Hang.OrderedProducer} {f : Hang.Frame}
    (hinv : s.groupsStartWithKeyframe) (h : s.write f = .ok t) :
    t.groupsStartWithKeyframe := by
  classical
  unfold Hang.OrderedProducer.write at h
  by_cases hk : f.keyframe
  · simp only [hk, if_true] at h
    set s1 : Hang.OrderedProducer :=
      (match s.group with
        | some g => { s with closedGroups := s.closedGroups ++ [g], group := none }
        | none => s) with hs1
    have hinv1 : s1.groupsStartWithKeyframe ∧ s1.group = none := by
      cases hg : s.group with
      | some g =>
        constructor
        · intro gg hgg
          apply hinv
          simp only [Hang.OrderedProducer.allGroups] at hgg ⊢
          simp [hs1, hg] at hgg
          simp [hg]
          tauto
        · simp [hs1, hg]
      | none =>
        constructor
        · intro gg hgg
          apply hinv
          simpa [hs1, hg] using hgg
        · simp [hs1, hg]
    have hgrp : ∀ k, Hang.OrderedProducer.writeIntoGroup { s1 with keyframe := k } f = .ok t →
        t.groupsStartWithKeyframe := by
      intro k hw
      unfold Hang.OrderedProducer.writeIntoGroup at hw
      rw [show ({ s1 with keyframe := k } : Hang.OrderedProducer).group = s1.group from rfl,
        hinv1.2] at hw
      simp only [hk, if_true] at hw
      cases hw
      intro gg hgg
      simp only [Hang.OrderedProducer.allGroups, Option.toList] at hgg
      simp at hgg
      rcases hgg with hgg | hgg
      · exact hinv1.1 gg (by simp [Hang.OrderedProducer.allGroups, hinv1.2, hgg])
      · exact ⟨f, [], by simp [hgg], hk⟩
    cases hkf : s1.keyframe with
    | some k =>
      simp only [hkf] at h
      by_cases hts : f.timestamp < k
      · simp [hts] at h
      · simp only [hts, if_false] at h
        exact hgrp _ h
    | none =>
      simp only [hkf] at h
      exact hgrp _ h
  · simp only [hk, if_false, Bool.false_eq_true] at h
    unfold Hang.OrderedProducer.writeIntoGroup at h
    cases hg : s.group with
    | some g =>
      simp only [hg] at h
      cases h
      intro gg hgg
      simp only [Hang.OrderedProducer.allGroups, Option.toList] at hgg
      simp at hgg
      rcases hgg with hgg | hgg
      · exact hinv gg (by simp [Hang.OrderedProducer.allGroups, hg, hgg])
      · rcases hinv g (by simp [Hang.OrderedProducer.allGroups, hg]) with ⟨f0, rest, hg0, hf0⟩
        exact ⟨f0, rest ++ [f], by simp [hgg, hg0], hf0⟩
    | none =>
      simp [hg, hk] at h

end OrderedProducerTheorems

section OrderedProducerTheorems2

open Hang

/-- A successful `write` creates exactly one group when the frame is a
keyframe and none otherwise. -/
theorem write_allGroups_length {s t : Hang.OrderedProducer} {f : Hang.Frame}
    (h : s.write f = .ok t) :
    t.allGroups.length = s.allGroups.length + (if f.keyframe then 1 else 0) := by
  classical
  unfold Hang.OrderedProducer.write at h
  by_cases hk : f.keyframe
  · simp only [hk, if_true] at h ⊢
    set s1 : Hang.OrderedProducer :=
      (match s.group with
        | some g => { s with closedGroups := s.closedGroups ++ [g], group := none }
        | none => s) with hs1
    have hlen : s1.allGroups.length = s.allGroups.length ∧ s1.group = none := by
      cases hg : s.group with
      | some g =>
        exact ⟨by simp [hs1, hg, Hang.OrderedProducer.allGroups], by simp [hs1, hg]⟩
      | none =>
        exact ⟨by simp [hs1, hg], by simp [hs1, hg]⟩
    have hgrp : ∀ k, Hang.OrderedProducer.writeIntoGroup { s1 with keyframe := k } f = .ok t →
        t.allGroups.length = s.allGroups.length + 1 := by
      intro k hw
      unfold Hang.OrderedProducer.writeIntoGroup at hw
      rw [show ({ s1 with keyframe := k } : Hang.OrderedProducer).group = s1.group from rfl,
        hlen.2] at hw
      simp only [hk, if_true] at hw
      cases hw
      have h1 := hlen.1
      simp only [Hang.OrderedProducer.allGroups, hlen.2, List.length_append] at h1 ⊢
      simp only [Option.toList, List.length_nil, List.length_cons,
        List.length_singleton] at h1 ⊢
      omega
    cases hkf : s1.keyframe with
    | some k =>
      simp only [hkf] at h
      by_cases hts : f.timestamp < k
      · simp [hts] at h
      · simp only [hts, if_false] at h
        exact hgrp _ h
    | none =>
      simp only [hkf] at h
      exact hgrp _ h
  · simp only [hk, if_false, Bool.false_eq_true] at h
    unfold Hang.OrderedProducer.writeIntoGroup at h
    cases hg : s.group with
    | some g =>
      simp only [hg] at h
      cases h
      simp [Hang.OrderedProducer.allGroups, hg, hk]
    | none =>
      simp [hg, hk] at h

/-- After a successful keyframe `write`, the last-keyframe timestamp is the
frame's and a group is open; a successful non-keyframe `write` keeps the
last-keyframe timestamp and a group stays open. -/
theorem write_state {s t : Hang.OrderedProducer} {f : Hang.Frame}
    (h : s.write f = .ok t) :
    (f.keyframe = true → t.keyframe = some f.timestamp ∧ t.group.isSome) ∧
      (f.keyframe = false → t.keyframe = s.keyframe ∧ t.group.isSome) := by
  classical
  unfold Hang.OrderedProducer.write at h
  by_cases hk : f.keyframe
  · simp only [hk, if_true] at h
    refine ⟨fun _ => ?_, fun hc => by simp [hk] at hc⟩
    set s1 : Hang.OrderedProducer :=
      (match s.group with
        | some g => { s with closedGroups := s.closedGroups ++ [g], group := none }
        | none => s) with hs1
    have hg1 : s1.group = none ∨ s1.group = s.group := by
      cases hg : s.group with
      | some g => left; simp [hs1, hg]
      | none => left; simp [hs1, hg]
    have hgrp : ∀ k, Hang.OrderedProducer.writeIntoGroup { s1 with keyframe := k } f = .ok t →
        k = t.keyframe ∧ t.group.isSome := by
      intro k hw
      unfold Hang.OrderedProducer.writeIntoGroup at hw
      cases hgg : ({ s1 with keyframe := k } : Hang.OrderedProducer).group with
      | some g => rw [hgg] at hw; cases hw; simp
      | none =>
        rw [hgg] at hw
        simp only [hk, if_true] at hw
        cases hw
        simp
    cases hkf : s1.keyframe with
    | some k =>
      simp only [hkf] at h
      by_cases hts : f.timestamp < k
      · simp [hts] at h
      · simp only [hts, if_false] at h
        rcases hgrp _ h with ⟨h1, h2⟩
        exact ⟨h1.symm, h2⟩
    | none =>
      simp only [hkf] at h
      rcases hgrp _ h with ⟨h1, h2⟩
      exact ⟨h1.symm, h2⟩
  · simp only [hk, if_false, Bool.false_eq_true] at h
    unfold Hang.OrderedProducer.writeIntoGroup at h
    refine ⟨fun hc => by simp [hc] at hk, fun _ => ?_⟩
    cases hg : s.group with
    | some g =>
      simp only [hg] at h
      cases h
      simp
    | none =>
      simp [hg, hk] at h

end OrderedProducerTheorems2

namespace Hang

/-- The number of keyframes in the list. -/
def countKeyframes (fs : List Frame) : Nat :=
  (fs.filter fun f => f.keyframe).length

end Hang

section OrderedProducerTheorems3

open Hang

/-- A keyframe whose timestamp does not go backwards is always written
successfully. -/
theorem write_keyframe_ok (s : Hang.OrderedProducer) (f : Hang.Frame)
    (hk : f.keyframe = true) (hts : ∀ k, s.keyframe = some k → k ≤ f.timestamp) :
    ∃ t, s.write f = .ok t := by
  classical
  unfold Hang.OrderedProducer.write
  simp only [hk, if_true]
  set s1 : Hang.OrderedProducer :=
    (match s.group with
      | some g => { s with closedGroups := s.closedGroups ++ [g], group := none }
      | none => s) with hs1
  have hg1 : s1.group = none := by
    cases hg : s.group with
    | some g => simp [hs1, hg]
    | none => simp [hs1, hg]
  have hk1 : s1.keyframe = s.keyframe := by
    cases hg : s.group with
    | some g => simp [hs1, hg]
    | none => simp [hs1, hg]
  cases hkf : s1.keyframe with
  | some k =>
    have : ¬ f.timestamp < k := by
      have := hts k (hk1 ▸ hkf)
      omega
    simp only [hkf, this, if_false]
    unfold Hang.OrderedProducer.writeIntoGroup
    rw [show ({ s1 with keyframe := some f.timestamp } : Hang.OrderedProducer).group
        = s1.group from rfl, hg1]
    simp [hk]
  | none =>
    simp only [hkf]
    unfold Hang.OrderedProducer.writeIntoGroup
    rw [show ({ s1 with keyframe := some f.timestamp } : Hang.OrderedProducer).group
        = s1.group from rfl, hg1]
    simp [hk]

/-- A non-keyframe is written successfully whenever a group is open. -/
theorem write_nonkeyframe_ok (s : Hang.OrderedProducer) (f : Hang.Frame)
    (hk : f.keyframe = false) (hg : s.group.isSome = true) :
    ∃ t, s.write f = .ok t := by
  unfold Hang.OrderedProducer.write
  simp only [hk, Bool.false_eq_true, if_false]
  unfold Hang.OrderedProducer.writeIntoGroup
  rcases Option.isSome_iff_exists.mp hg with ⟨g, hgg⟩
  simp [hgg]

/-- `writeAll` succeeds when the keyframe timestamps (prefixed by the
producer's last keyframe) are monotone and the first frame is a keyframe
unless a group is already open. -/
theorem writeAll_ok (fs : List Hang.Frame) :
    ∀ s : Hang.OrderedProducer,
      List.Chain' (· ≤ ·) (s.keyframe.toList ++ Hang.keyframeTimestamps fs) →
      (s.group.isSome = true ∨ Hang.firstKeyframe fs) →
      ∃ t, s.writeAll fs = .ok t := by
  induction fs with
  | nil => exact fun s _ _ => ⟨s, rfl⟩
  | cons f rest ih =>
    intro s hchain hfirst
    by_cases hk : f.keyframe
    · have hts : ∀ k, s.keyframe = some k → k ≤ f.timestamp := by
        intro k hkk
        rw [hkk] at hchain
        simp only [Hang.keyframeTimestamps, List.filter_cons, hk, if_true] at hchain
        simp only [Option.toList, List.cons_append, List.map_cons] at hchain
        exact (List.chain'_cons.mp hchain).1
      rcases write_keyframe_ok s f hk hts with ⟨u, hu⟩
      have hstate := (write_state hu).1 hk
      have hchain2 : List.Chain' (· ≤ ·)
          (u.keyframe.toList ++ Hang.keyframeTimestamps rest) := by
        rw [hstate.1]
        have : List.Chain' (· ≤ ·)
            (f.timestamp :: Hang.keyframeTimestamps rest) := by
          have hx : List.Chain' (· ≤ ·)
              (Hang.keyframeTimestamps (f :: rest)) := by
            cases hkk : s.keyframe with
            | none => simpa [hkk] using hchain
            | some k =>
              rw [hkk] at hchain
              simp only [Option.toList, List.cons_append] at hchain
              exact (List.chain'_cons'.mp hchain).2
          simpa [Hang.keyframeTimestamps, List.filter_cons, hk] using hx
        simpa using this
      rcases ih u hchain2 (Or.inl hstate.2) with ⟨t, ht⟩
      refine ⟨t, ?_⟩
      unfold Hang.OrderedProducer.writeAll
      rw [hu]
      exact ht
    · have hg : s.group.isSome = true := by
        rcases hfirst with hg | hfk
        · exact hg
        · simp only [Hang.firstKeyframe] at hfk
          exact absurd hfk hk
      have hkk : f.keyframe = false := by simpa using hk
      rcases write_nonkeyframe_ok s f hkk hg with ⟨u, hu⟩
      have hstate := (write_state hu).2 hkk
      have hchain2 : List.Chain' (· ≤ ·)
          (u.keyframe.toList ++ Hang.keyframeTimestamps rest) := by
        rw [hstate.1]
        simpa [Hang.keyframeTimestamps, List.filter_cons, hkk] using hchain
      rcases ih u hchain2 (Or.inl hstate.2) with ⟨t, ht⟩
      refine ⟨t, ?_⟩
      unfold Hang.OrderedProducer.writeAll
      rw [hu]
      exact ht

/-- Folding `write_allGroups_length` over a run: the number of groups created
equals the number of keyframes written. -/
theorem writeAll_allGroups_length (fs : List Hang.Frame) :
    ∀ s t : Hang.OrderedProducer, s.writeAll fs = .ok t →
      t.allGroups.length = s.allGroups.length + Hang.countKeyframes fs := by
  induction fs with
  | nil =>
    intro s t h
    cases h
    simp [Hang.countKeyframes]
  | cons f rest ih =>
    intro s t h
    unfold Hang.OrderedProducer.writeAll at h
    cases hu : s.write f with
    | error e => rw [hu] at h; exact absurd h (by simp)
    | ok u =>
      rw [hu] at h
      have h1 := write_allGroups_length hu
      have h2 := ih u t h
      simp only [Hang.countKeyframes, List.filter_cons] at h2 ⊢
      by_cases hk : f.keyframe
      · simp [hk] at h1 ⊢
        omega
      · simp [hk] at h1 ⊢
        omega

/-- Folding `write_groupsStartWithKeyframe` over a run. -/
theorem writeAll_groupsStart (fs : List Hang.Frame) :
    ∀ s t : Hang.OrderedProducer, s.writeAll fs = .ok t →
      s.groupsStartWithKeyframe → t.groupsStartWithKeyframe := by
  induction fs with
  | nil =>
    intro s t h hs
    cases h
    exact hs
  | cons f rest ih =>
    intro s t h hs
    unfold Hang.OrderedProducer.writeAll at h
    cases hu : s.write f with
    | error e => rw [hu] at h; exact absurd h (by simp)
    | ok u =>
      rw [hu] at h
      exact ih u t h (write_groupsStartWithKeyframe hs hu)

/-- Claim C4: writing a stream of frames whose keyframe timestamps are
monotone non-decreasing and whose first frame is a keyframe succeeds, creates
exactly one group per keyframe, and every created group's first frame is a
keyframe; writing a non-keyframe when no group is open fails with
`MissingKeyframe`; writing a keyframe whose timestamp is below the previous
keyframe's fails with `TimestampBackwards`. -/
theorem C4_ordered_producer_write (fs : List Hang.Frame)
    (h1 : Hang.firstKeyframe fs)
    (h2 : List.Chain' (· ≤ ·) (Hang.keyframeTimestamps fs)) :
    (∃ t : Hang.OrderedProducer,
      Hang.OrderedProducer.writeAll {} fs = .ok t ∧
      t.allGroups.length = Hang.countKeyframes fs ∧
      t.groupsStartWithKeyframe) ∧
    (∀ (s : Hang.OrderedProducer) (f : Hang.Frame), f.keyframe = false → s.group = none →
      s.write f = .error .missingKeyframe) ∧
    (∀ (s : Hang.OrderedProducer) (f : Hang.Frame) (k : Nat), f.keyframe = true →
      s.keyframe = some k → f.timestamp < k →
      s.write f = .error .timestampBackwards) := by
  refine ⟨?_, ?_, ?_⟩
  · rcases writeAll_ok fs {} (by simpa using h2) (Or.inr h1) with ⟨t, ht⟩
    refine ⟨t, ht, ?_, ?_⟩
    · have := writeAll_allGroups_length fs {} t ht
      simpa [Hang.OrderedProducer.allGroups] using this
    · refine writeAll_groupsStart fs {} t ht ?_
      intro g hg
      simp [Hang.OrderedProducer.allGroups] at hg
  · intro s f hk hg
    unfold Hang.OrderedProducer.write Hang.OrderedProducer.writeIntoGroup
    simp [hk, hg]
  · intro s f k hk hkey hts
    unfold Hang.OrderedProducer.write
    simp only [hk, if_true]
    have hk1 : (match s.group with
        | some g => ({ s with closedGroups := s.closedGroups ++ [g], group := none }
            : Hang.OrderedProducer)
        | none => s).keyframe = s.keyframe := by
      cases hg : s.group with
      | some g => simp
      | none => simp
    rw [hk1, hkey]
    simp [hts]

/-- Claim C4 witness: the spec's S1 frames (keyframe at 1 s, delta at 2 s,
keyframe at 3 s) produce exactly two groups, each starting with a
keyframe. -/
theorem C4_ordered_producer_write_witness :
    ∃ t : Hang.OrderedProducer,
      Hang.OrderedProducer.writeAll {}
        [⟨1000000, true, [0x61]⟩, ⟨2000000, false, [0x62, 0x62]⟩,
          ⟨3000000, true, [0x63, 0x63, 0x63]⟩] = .ok t ∧
      t.allGroups.length = 2 := by
  have h := C4_ordered_producer_write
    [⟨1000000, true, [0x61]⟩, ⟨2000000, false, [0x62, 0x62]⟩,
      ⟨3000000, true, [0x63, 0x63, 0x63]⟩]
    (by simp [Hang.firstKeyframe]) (by simp [Hang.keyframeTimestamps])
  rcases h.1 with ⟨t, ht, hlen, _⟩
  exact ⟨t, ht, by simpa [Hang.countKeyframes] using hlen⟩

end OrderedProducerTheorems3

namespace Hang

/-- JSON strings are modelled as lists of unicode scalar values. -/
abbrev JString := List Char

/-- The decimal form of a JSON number as printed by `serde_json` (integers
directly; finite `f64` values via ryu's shortest round-trip form). The f64
fields of the catalog (`framerate`, `rotation`) are embedded as this decimal
form; non-finite floats (which `serde_json` serializes as `null` and which
are not equal to themselves under `PartialEq`) are outside the model. -/
structure JNumber where
  neg : Bool := false
  intDigits : List Nat := [0]
  fracDigits : List Nat := []
  expNeg : Bool := false
  expDigits : List Nat := []
  deriving DecidableEq, Repr

/-- Well-formedness of the printed form: decimal digits only, no empty or
zero-padded integer part, and no empty or zero-padded exponent. -/
def JNumber.wf (n : JNumber) : Prop :=
  n.intDigits ≠ [] ∧ (∀ d ∈ n.intDigits, d < 10) ∧
    (∀ d ∈ n.fracDigits, d < 10) ∧ (∀ d ∈ n.expDigits, d < 10) ∧
    (1 < n.intDigits.length → n.intDigits.head? ≠ some 0) ∧
    (n.expDigits ≠ [] → n.expDigits.head? ≠ some 0) ∧
    (n.expDigits = [] → n.expNeg = false)

instance (n : JNumber) : Decidable n.wf := by
  unfold JNumber.wf; infer_instance

/-- The JSON fragment produced by the catalog serializer: strings, numbers,
booleans and objects (`serde_json` compact form; the catalog document
contains no arrays, and `skip_serializing_none` means no `null` is ever
emitted). -/
inductive Json where
  | str (s : JString)
  | num (n : JNumber)
  | bool (b : Bool)
  | obj (fields : List (JString × Json))
  deriving Repr

mutual

/-- Well-formed JSON values: every number in canonical printed form. -/
def Json.wf : Json → Prop
  | .str _ => True
  | .num n => n.wf
  | .bool _ => True
  | .obj fields => fieldsWf fields

/-- Well-formedness of an object's field list. -/
def fieldsWf : List (JString × Json) → Prop
  | [] => True
  | f :: rest => Json.wf f.2 ∧ fieldsWf rest

end

/-- The opening brace. -/
def lbrace : Char := Char.ofNat 123

/-- The closing brace. -/
def rbrace : Char := Char.ofNat 125

/-- The character for a decimal digit. -/
def digitChar (d : Nat) : Char := Char.ofNat (48 + d)

/-- The lowercase hexadecimal character for `d < 16` (as written by
`serde_json` escapes and `serde_with::hex::Hex`). -/
def hexChar (d : Nat) : Char :=
  if d < 10 then Char.ofNat (48 + d) else Char.ofNat (87 + d)

/-- `serde_json`'s string escaping: quote and backslash get a backslash; the
named control escapes are `\b \t \n \f \r`; other control characters use
`\u00XX`; everything else is written verbatim (UTF-8). -/
def escapeChar (c : Char) : List Char :=
  if c = '"' then ['\\', '"']
  else if c = '\\' then ['\\', '\\']
  else if c.toNat = 8 then ['\\', 'b']
  else if c.toNat = 9 then ['\\', 't']
  else if c.toNat = 10 then ['\\', 'n']
  else if c.toNat = 12 then ['\\', 'f']
  else if c.toNat = 13 then ['\\', 'r']
  else if c.toNat < 32 then
    ['\\', 'u', '0', '0', hexChar (c.toNat / 16), hexChar (c.toNat % 16)]
  else [c]

/-- Render a JSON string, quotes included. -/
def renderString (s : JString) : List Char :=
  '"' :: s.flatMap escapeChar ++ ['"']

/-- Render the digits of a number. -/
def renderDigits (ds : List Nat) : List Char := ds.map digitChar

/-- Render the optional fraction part. -/
def renderFracPart (frac : List Nat) : List Char :=
  if frac = [] then [] else '.' :: renderDigits frac

/-- Render the optional exponent part. -/
def renderExpPart (eneg : Bool) (exp : List Nat) : List Char :=
  if exp = [] then []
  else 'e' :: ((if eneg then ['-'] else []) ++ renderDigits exp)

/-- Render a JSON number in its decimal form. -/
def JNumber.render (n : JNumber) : List Char :=
  (if n.neg then ['-'] else []) ++ renderDigits n.intDigits ++
    renderFracPart n.fracDigits ++ renderExpPart n.expNeg n.expDigits

mutual

/-- Render a JSON value in `serde_json`'s compact form (no whitespace). -/
def Json.render : Json → List Char
  | .str s => renderString s
  | .num n => n.render
  | .bool b => if b then ['t', 'r', 'u', 'e'] else ['f', 'a', 'l', 's', 'e']
  | .obj fields => lbrace :: renderFields fields ++ [rbrace]

/-- Render the fields of an object, comma-separated. -/
def renderFields : List (JString × Json) → List Char
  | [] => []
  | [(k, v)] => renderString k ++ ':' :: Json.render v
  | (k, v) :: rest => renderString k ++ ':' :: Json.render v ++ ',' :: renderFields rest

end

/-- Decode a named escape character. -/
def unescapeChar (e : Char) : Option Char :=
  if e = '"' then some '"'
  else if e = '\\' then some '\\'
  else if e = '/' then some '/'
  else if e = 'b' then some (Char.ofNat 8)
  else if e = 't' then some (Char.ofNat 9)
  else if e = 'n' then some (Char.ofNat 10)
  else if e = 'f' then some (Char.ofNat 12)
  else if e = 'r' then some (Char.ofNat 13)
  else none

/-- The value of a hexadecimal digit character. -/
def hexVal (c : Char) : Option Nat :=
  if 48 ≤ c.toNat ∧ c.toNat ≤ 57 then some (c.toNat - 48)
  else if 97 ≤ c.toNat ∧ c.toNat ≤ 102 then some (c.toNat - 87)
  else if 65 ≤ c.toNat ∧ c.toNat ≤ 70 then some (c.toNat - 55)
  else none

/-- Parse the body of a JSON string after the opening quote, returning the
decoded characters and the input after the closing quote. (Surrogate-pair
escapes are outside the modelled fragment; lone `\uXXXX` escapes decode to
the scalar value.) -/
def parseStringBody : List Char → Option (JString × List Char)
  | [] => none
  | c :: rest =>
    if c = '"' then some ([], rest)
    else if c = '\\' then
      match rest with
      | [] => none
      | e :: rest2 =>
        if e = 'u' then
          match rest2 with
          | h1 :: h2 :: h3 :: h4 :: rest3 =>
            match hexVal h1, hexVal h2, hexVal h3, hexVal h4 with
            | some a, some b, some x, some d =>
              (parseStringBody rest3).map fun r =>
                (Char.ofNat (((a * 16 + b) * 16 + x) * 16 + d) :: r.1, r.2)
            | _, _, _, _ => none
          | _ => none
        else
          match unescapeChar e with
          | some x => (parseStringBody rest2).map fun r => (x :: r.1, r.2)
          | none => none
    else (parseStringBody rest).map fun r => (c :: r.1, r.2)
  termination_by structural input => input

/-- Whether the character is a decimal digit. -/
def isDigitChar (c : Char) : Bool := 48 ≤ c.toNat && c.toNat ≤ 57

/-- The value of a decimal digit character. -/
def charDigit (c : Char) : Nat := c.toNat - 48

/-- Maximal munch of decimal digits. -/
def parseDigits : List Char → List Nat × List Char
  | [] => ([], [])
  | c :: rest =>
    if isDigitChar c then
      let r := parseDigits rest
      (charDigit c :: r.1, r.2)
    else ([], c :: rest)

/-- Parse an optional leading minus sign. -/
def parseSign : List Char → Bool × List Char
  | c :: rest => if c = '-' then (true, rest) else (false, c :: rest)
  | [] => (false, [])

/-- Parse an optional fraction part (a dot followed by at least one digit). -/
def parseFrac : List Char → Option (List Nat × List Char)
  | c :: rest =>
    if c = '.' then
      let r := parseDigits rest
      if r.1 = [] then none else some (r.1, r.2)
    else some ([], c :: rest)
  | [] => some ([], [])

/-- Parse an optional exponent part (`e`/`E`, an optional sign, and at least
one digit); an absent exponent is `(false, [])`. -/
def parseExp : List Char → Option ((Bool × List Nat) × List Char)
  | c :: rest =>
    if c = 'e' ∨ c = 'E' then
      match rest with
      | c2 :: rest2 =>
        if c2 = '-' then
          let ds := parseDigits rest2
          if ds.1 = [] then none else some ((true, ds.1), ds.2)
        else if c2 = '+' then
          let ds := parseDigits rest2
          if ds.1 = [] then none else some ((false, ds.1), ds.2)
        else
          let ds := parseDigits rest
          if ds.1 = [] then none else some ((false, ds.1), ds.2)
      | [] => none
    else some ((false, []), c :: rest)
  | [] => some ((false, []), [])

/-- Parse a JSON number in decimal form (sign, integer digits, optional
fraction, optional exponent). -/
def parseNumber (input : List Char) : Option (JNumber × List Char) :=
  let s := parseSign input
  let intR := parseDigits s.2
  if intR.1 = [] then none
  else
    match parseFrac intR.2 with
    | none => none
    | some fr =>
      match parseExp fr.2 with
      | none => none
      | some er =>
        some ({ neg := s.1, intDigits := intR.1, fracDigits := fr.1,
                expNeg := er.1.1, expDigits := er.1.2 }, er.2)

mutual

/-- Parse a JSON value (fueled; the fuel bounds the nesting structure and
makes the recursion structural). -/
def parseJson : Nat → List Char → Option (Json × List Char)
  | 0, _ => none
  | fuel + 1, input =>
    match input with
    | [] => none
    | c :: rest =>
      if c = '"' then (parseStringBody rest).map fun r => (.str r.1, r.2)
      else if c = lbrace then
        match rest with
        | [] => none
        | c2 :: rest2 =>
          if c2 = rbrace then some (.obj [], rest2)
          else (parseFields fuel (c2 :: rest2)).map fun r => (.obj r.1, r.2)
      else if c = 't' then
        match rest with
        | 'r' :: 'u' :: 'e' :: rest2 => some (.bool true, rest2)
        | _ => none
      else if c = 'f' then
        match rest with
        | 'a' :: 'l' :: 's' :: 'e' :: rest2 => some (.bool false, rest2)
        | _ => none
      else (parseNumber input).map fun r => (.num r.1, r.2)

/-- Parse the fields of an object after the opening brace (at least one
field), consuming the closing brace. -/
def parseFields : Nat → List Char → Option (List (JString × Json) × List Char)
  | 0, _ => none
  | fuel + 1, input =>
    match input with
    | [] => none
    | c :: rest =>
      if c = '"' then
        match parseStringBody rest with
        | some (key, rest1) =>
          match rest1 with
          | ':' :: rest2 =>
            match parseJson fuel rest2 with
            | some (v, rest3) =>
              match rest3 with
              | [] => none
              | c4 :: rest4 =>
                if c4 = ',' then
                  (parseFields fuel rest4).map fun r => ((key, v) :: r.1, r.2)
                else if c4 = rbrace then some ([(key, v)], rest4)
                else none
            | none => none
          | _ => none
        | none => none
      else none

end

mutual

/-- A structural size bound used to pick sufficient parsing fuel. -/
def Json.fsize : Json → Nat
  | .obj fields => 1 + fieldsSize fields
  | _ => 1

/-- Size bound for a field list. -/
def fieldsSize : List (JString × Json) → Nat
  | [] => 1
  | (_, v) :: rest => 1 + v.fsize + fieldsSize rest

end

/-- Lookup a field of a JSON object by key (first match). -/
def jlookup : List (JString × Json) → JString → Option Json
  | [], _ => none
  | (k, v) :: rest, key => if k = key then some v else jlookup rest key

/-- For a decimal digit value, `hexChar` and `digitChar` agree and round-trip
through `hexVal` / `charDigit`. -/
theorem digitChar_round (d : Nat) (h : d < 10) :
    isDigitChar (digitChar d) = true ∧ charDigit (digitChar d) = d := by
  interval_cases d <;> exact ⟨by decide, by decide⟩

/-- `hexVal` inverts `hexChar` on hex digit values. -/
theorem hexVal_hexChar (d : Nat) (h : d < 16) : hexVal (hexChar d) = some d := by
  interval_cases d <;> decide

/-- A digit character is none of the structural delimiter characters. -/
theorem digitChar_ne (d : Nat) (h : d < 10) :
    digitChar d ≠ '-' ∧ digitChar d ≠ '+' ∧ digitChar d ≠ '.' ∧
      digitChar d ≠ 'e' ∧ digitChar d ≠ 'E' ∧ digitChar d ≠ '"' ∧
      digitChar d ≠ lbrace ∧ digitChar d ≠ 't' ∧ digitChar d ≠ 'f' := by
  interval_cases d <;>
    exact ⟨by decide, by decide, by decide, by decide, by decide, by decide,
      by decide, by decide, by decide⟩

/-- Parsing the escaped rendering of a string body recovers it, leaving the
input after the closing quote untouched. -/
theorem parseStringBody_round (s : JString) (rest : List Char) :
    parseStringBody (s.flatMap escapeChar ++ ('"' :: rest)) = some (s, rest) := by
  induction s with
  | nil =>
    rw [List.flatMap_nil, List.nil_append, parseStringBody.eq_def]
    simp
  | cons c cs ih =>
    rw [List.flatMap_cons, List.append_assoc]
    by_cases h1 : c = '"'
    · subst h1
      rw [show escapeChar '"' = ['\\', '"'] from rfl]
      rw [List.cons_append, List.cons_append, List.nil_append,
        parseStringBody.eq_def]
      simp [unescapeChar, ih]
    by_cases h2 : c = '\\'
    · subst h2
      rw [show escapeChar '\\' = ['\\', '\\'] from rfl]
      rw [List.cons_append, List.cons_append, List.nil_append,
        parseStringBody.eq_def]
      simp [unescapeChar, ih]
    by_cases h3 : c.toNat = 8
    · have hc : c = Char.ofNat 8 := by rw [← h3, Char.ofNat_toNat]
      rw [show escapeChar c = ['\\', 'b'] from by
        simp [escapeChar, h1, h2, h3]]
      rw [List.cons_append, List.cons_append, List.nil_append,
        parseStringBody.eq_def]
      simp [unescapeChar, ih]
      exact hc.symm
    by_cases h4 : c.toNat = 9
    · have hc : c = Char.ofNat 9 := by rw [← h4, Char.ofNat_toNat]
      rw [show escapeChar c = ['\\', 't'] from by
        simp [escapeChar, h1, h2, h3, h4]]
      rw [List.cons_append, List.cons_append, List.nil_append,
        parseStringBody.eq_def]
      simp [unescapeChar, ih]
      exact hc.symm
    by_cases h5 : c.toNat = 10
    · have hc : c = Char.ofNat 10 := by rw [← h5, Char.ofNat_toNat]
      rw [show escapeChar c = ['\\', 'n'] from by
        simp [escapeChar, h1, h2, h3, h4, h5]]
      rw [List.cons_append, List.cons_append, List.nil_append,
        parseStringBody.eq_def]
      simp [unescapeChar, ih]
      exact hc.symm
    by_cases h6 : c.toNat = 12
    · have hc : c = Char.ofNat 12 := by rw [← h6, Char.ofNat_toNat]
      rw [show escapeChar c = ['\\', 'f'] from by
        simp [escapeChar, h1, h2, h3, h4, h5, h6]]
      rw [List.cons_append, List.cons_append, List.nil_append,
        parseStringBody.eq_def]
      simp [unescapeChar, ih]
      exact hc.symm
    by_cases h7 : c.toNat = 13
    · have hc : c = Char.ofNat 13 := by rw [← h7, Char.ofNat_toNat]
      rw [show escapeChar c = ['\\', 'r'] from by
        simp [escapeChar, h1, h2, h3, h4, h5, h6, h7]]
      rw [List.cons_append, List.cons_append, List.nil_append,
        parseStringBody.eq_def]
      simp [unescapeChar, ih]
      exact hc.symm
    by_cases h8 : c.toNat < 32
    · have hdiv : c.toNat / 16 < 16 := by omega
      have hmod : c.toNat % 16 < 16 := Nat.mod_lt _ (by omega)
      rw [show escapeChar c =
          ['\\', 'u', '0', '0', hexChar (c.toNat / 16), hexChar (c.toNat % 16)] from by
        simp [escapeChar, h1, h2, h3, h4, h5, h6, h7, h8]]
      simp only [List.cons_append, List.nil_append]
      rw [parseStringBody.eq_def]
      simp only [reduceIte, show ¬ (('\\' : Char) = '"') from by decide]
      rw [hexVal_hexChar _ hdiv, hexVal_hexChar _ hmod,
        show hexVal '0' = some 0 from by decide]
      rw [ih]
      simp only [Option.map_some]
      have h9 : ((0 * 16 + 0) * 16 + c.toNat / 16) * 16 + c.toNat % 16 = c.toNat := by
        omega
      rw [h9, Char.ofNat_toNat]
      rfl
    · rw [show escapeChar c = [c] from by
        simp [escapeChar, h1, h2, h3, h4, h5, h6, h7, h8]]
      rw [List.cons_append, List.nil_append, parseStringBody.eq_def]
      simp [h1, h2, ih]

/-- The input does not begin with a decimal digit. -/
def notDigitStart : List Char → Prop
  | [] => True
  | c :: _ => isDigitChar c = false

/-- The input does not begin with a character that could continue a number. -/
def notNumCont : List Char → Prop
  | [] => True
  | c :: _ => isDigitChar c = false ∧ c ≠ '.' ∧ c ≠ 'e' ∧ c ≠ 'E'

/-- Parsing the rendering of a digit run recovers it (maximal munch stops at
the first non-digit). -/
theorem parseDigits_round (ds : List Nat) (rest : List Char)
    (h : ∀ d ∈ ds, d < 10) (h2 : notDigitStart rest) :
    parseDigits (renderDigits ds ++ rest) = (ds, rest) := by
  induction ds with
  | nil =>
    cases rest with
    | nil => rfl
    | cons c r =>
      unfold notDigitStart at h2
      rw [renderDigits, List.map_nil, List.nil_append, parseDigits.eq_def]
      simp [h2]
  | cons d ds ih =>
    have hd := h d (by simp)
    have hr := digitChar_round d hd
    rw [renderDigits, List.map_cons, List.cons_append, parseDigits.eq_def]
    simp only [hr.1, if_true]
    rw [show List.map digitChar ds = renderDigits ds from rfl,
      ih (fun x hx => h x (by simp [hx]))]
    simp [hr.2]


/-- The sign parser recovers the rendered sign; a digit never looks like a
minus. -/
theorem parseSign_round (neg : Bool) (int : List Nat) (tail : List Char)
    (hint : int ≠ []) (hintd : ∀ d ∈ int, d < 10) :
    parseSign ((if neg then ['-'] else []) ++ (renderDigits int ++ tail)) =
      (neg, renderDigits int ++ tail) := by
  cases neg with
  | true =>
    rw [if_pos rfl, List.singleton_append, parseSign.eq_def]
    simp
  | false =>
    rw [if_neg (by simp), List.nil_append]
    obtain ⟨d0, int2, hd0⟩ : ∃ d0 int2, int = d0 :: int2 := by
      cases int with
      | nil => exact absurd rfl hint
      | cons a b => exact ⟨a, b, rfl⟩
    have hd0lt : d0 < 10 := hintd d0 (by simp [hd0])
    rw [hd0, renderDigits, List.map_cons, List.cons_append, parseSign.eq_def]
    simp only []
    rw [if_neg (by exact_mod_cast (digitChar_ne d0 hd0lt).1)]

/-- The fraction parser recovers the rendered fraction part. -/
theorem parseFrac_round (frac : List Nat) (tail : List Char)
    (hfracd : ∀ d ∈ frac, d < 10)
    (htail1 : frac ≠ [] → notDigitStart tail)
    (htail2 : frac = [] → (∀ c r, tail = c :: r → c ≠ '.')) :
    parseFrac (renderFracPart frac ++ tail) = some (frac, tail) := by
  by_cases hf : frac = []
  · subst hf
    rw [renderFracPart, if_pos rfl, List.nil_append]
    cases tail with
    | nil => rfl
    | cons c r =>
      rw [parseFrac.eq_def]
      simp only []
      rw [if_neg (htail2 rfl c r rfl)]
  · rw [renderFracPart, if_neg hf, List.cons_append, parseFrac.eq_def]
    simp only []
    simp only [if_true]
    simp only [parseDigits_round frac tail hfracd (htail1 hf)]
    rw [if_neg hf]

/-- The exponent parser recovers the rendered exponent part. -/
theorem parseExp_round (eneg : Bool) (exp : List Nat) (tail : List Char)
    (hexpd : ∀ d ∈ exp, d < 10)
    (htail1 : exp ≠ [] → notDigitStart tail)
    (htail2 : exp = [] → (∀ c r, tail = c :: r → ¬ (c = 'e' ∨ c = 'E'))) :
    parseExp (renderExpPart eneg exp ++ tail) = some (((if exp = [] then false else eneg), exp), tail) := by
  by_cases he : exp = []
  · subst he
    rw [renderExpPart, if_pos rfl, List.nil_append, if_pos rfl]
    cases tail with
    | nil => rfl
    | cons c r =>
      rw [parseExp.eq_def]
      simp only []
      rw [if_neg (htail2 rfl c r rfl)]
  · rw [renderExpPart, if_neg he, List.cons_append, if_neg he]
    obtain ⟨d0, exp2, hd0⟩ : ∃ d0 exp2, exp = d0 :: exp2 := by
      cases exp with
      | nil => exact absurd rfl he
      | cons a b => exact ⟨a, b, rfl⟩
    have hd0lt : d0 < 10 := hexpd d0 (by simp [hd0])
    have hpd : parseDigits (renderDigits exp ++ tail) = (exp, tail) :=
      parseDigits_round exp tail hexpd (htail1 he)
    have hpd2 : parseDigits (digitChar d0 :: (List.map digitChar exp2 ++ tail))
        = (d0 :: exp2, tail) := by
      have h := hpd
      rw [hd0, renderDigits, List.map_cons, List.cons_append] at h
      exact h
    cases eneg with
    | true =>
      rw [if_pos rfl, List.singleton_append, parseExp.eq_def]
      simp only []
      simp [hpd, he]
    | false =>
      rw [if_neg (by simp), List.nil_append, hd0, renderDigits, List.map_cons,
        List.cons_append, parseExp.eq_def]
      simp only []
      simp [hpd2, hd0, (digitChar_ne d0 hd0lt).1, (digitChar_ne d0 hd0lt).2.1]

/-- Parsing the rendering of a well-formed number recovers it, provided the
following input cannot extend the number. -/
theorem parseNumber_round (n : JNumber) (rest : List Char) (hwf : n.wf)
    (hrest : notNumCont rest) :
    parseNumber (n.render ++ rest) = some (n, rest) := by
  obtain ⟨neg, int, frac, eneg, exp⟩ := n
  obtain ⟨hint, hintd, hfracd, hexpd, hlead, hexplead, hexpneg⟩ := hwf
  simp only at hint hintd hfracd hexpd hexplead hexpneg
  have hrestd : notDigitStart rest := by
    cases rest with
    | nil => trivial
    | cons c r => exact hrest.1
  have hrestdot : ∀ c r, rest = c :: r → c ≠ '.' := by
    intro c r hr
    rw [hr] at hrest
    exact hrest.2.1
  have hreste : ∀ c r, rest = c :: r → ¬ (c = 'e' ∨ c = 'E') := by
    intro c r hr
    rw [hr] at hrest
    rcases hrest with ⟨_, _, he1, he2⟩
    rintro (h | h)
    exacts [he1 h, he2 h]
  -- the continuation after the exponent part is `rest` itself
  have hexpTail1 : exp ≠ [] → notDigitStart rest := fun _ => hrestd
  have hexp := parseExp_round eneg exp rest hexpd hexpTail1 (fun _ => hreste)
  -- the continuation after the fraction part
  have hfracTail1 : frac ≠ [] → notDigitStart (renderExpPart eneg exp ++ rest) := by
    intro _
    by_cases he : exp = []
    · rw [renderExpPart, if_pos he, List.nil_append]
      exact hrestd
    · rw [renderExpPart, if_neg he, List.cons_append]
      show isDigitChar 'e' = false
      decide
  have hfracTail2 : frac = [] →
      ∀ c r, renderExpPart eneg exp ++ rest = c :: r → c ≠ '.' := by
    intro _ c r hcr
    by_cases he : exp = []
    · rw [renderExpPart, if_pos he, List.nil_append] at hcr
      exact hrestdot c r hcr
    · rw [renderExpPart, if_neg he, List.cons_append] at hcr
      cases hcr
      decide
  have hfrac := parseFrac_round frac (renderExpPart eneg exp ++ rest) hfracd
    hfracTail1 hfracTail2
  -- the continuation after the integer digits
  have hintTail : notDigitStart
      (renderFracPart frac ++ (renderExpPart eneg exp ++ rest)) := by
    by_cases hf : frac = []
    · rw [renderFracPart, if_pos hf, List.nil_append]
      by_cases he : exp = []
      · rw [renderExpPart, if_pos he, List.nil_append]
        exact hrestd
      · rw [renderExpPart, if_neg he, List.cons_append]
        show isDigitChar 'e' = false
        decide
    · rw [renderFracPart, if_neg hf, List.cons_append]
      show isDigitChar '.' = false
      decide
  have hpdint := parseDigits_round int
    (renderFracPart frac ++ (renderExpPart eneg exp ++ rest)) hintd hintTail
  have hsign := parseSign_round neg int
    (renderFracPart frac ++ (renderExpPart eneg exp ++ rest)) hint hintd
  unfold parseNumber
  rw [show JNumber.render ⟨neg, int, frac, eneg, exp⟩ ++ rest
      = (if neg then ['-'] else []) ++
        (renderDigits int ++
          (renderFracPart frac ++ (renderExpPart eneg exp ++ rest))) from by
    simp [JNumber.render]]
  rw [hsign]
  simp only [hpdint, if_neg hint, hfrac, hexp]
  by_cases he : exp = []
  · simp [he, hexpneg he]
  · simp [he]

/-- The input begins with a structural delimiter (or is exhausted): what
follows a value inside a document. -/
def jdelim : List Char → Prop
  | [] => True
  | c :: _ => c = ',' ∨ c = rbrace

/-- A delimiter cannot continue a number. -/
theorem jdelim_notNumCont (rest : List Char) (h : jdelim rest) : notNumCont rest := by
  cases rest with
  | nil => trivial
  | cons c r =>
    rcases h with h | h <;> subst h <;>
      exact ⟨by decide, by decide, by decide, by decide⟩

/-- Every JSON value has positive size. -/
theorem one_le_fsize (j : Json) : 1 ≤ j.fsize := by
  cases j <;> simp [Json.fsize]

/-- Every field list has positive size. -/
theorem one_le_fieldsSize (fields : List (JString × Json)) : 1 ≤ fieldsSize fields := by
  cases fields with
  | nil => simp [fieldsSize]
  | cons f rest =>
    simp only [fieldsSize]
    omega

/-- With enough fuel, parsing the rendering of a well-formed JSON value
recovers it (mutually with field lists). -/
theorem parseJson_round (fuel : Nat) :
    (∀ (j : Json) (rest : List Char), Json.wf j → Json.fsize j ≤ fuel → jdelim rest →
      parseJson fuel (j.render ++ rest) = some (j, rest)) ∧
    (∀ (fields : List (JString × Json)) (rest : List Char), fieldsWf fields →
      fields ≠ [] → fieldsSize fields ≤ fuel →
      parseFields fuel (renderFields fields ++ rbrace :: rest) = some (fields, rest)) := by
  induction fuel with
  | zero =>
    constructor
    · intro j rest _ hs _
      exact absurd (le_trans (one_le_fsize j) hs) (by omega)
    · intro fields rest _ _ hs
      exact absurd (le_trans (one_le_fieldsSize fields) hs) (by omega)
  | succ fuel ih =>
    constructor
    · intro j rest hwf hs hdelim
      cases j with
      | str s =>
        rw [Json.render, renderString]
        rw [show ('"' :: s.flatMap escapeChar ++ ['"']) ++ rest
            = '"' :: (s.flatMap escapeChar ++ ('"' :: rest)) from by simp]
        rw [parseJson.eq_def]
        try simp only []
        rw [if_pos trivial]
        rw [parseStringBody_round]
        rfl
      | num n =>
        have hnum := parseNumber_round n rest hwf (jdelim_notNumCont rest hdelim)
        rw [Json.render]
        obtain ⟨neg, int, frac, eneg, exp⟩ := n
        obtain ⟨hint, hintd, _, _, _, _, _⟩ := hwf
        obtain ⟨d0, int2, hd0⟩ : ∃ d0 int2, int = d0 :: int2 := by
          cases int with
          | nil => exact absurd rfl hint
          | cons a b => exact ⟨a, b, rfl⟩
        have hd0lt : d0 < 10 := hintd d0 (by simp [hd0])
        have hne := digitChar_ne d0 hd0lt
        cases neg with
        | true =>
          rw [show (JNumber.render ⟨true, int, frac, eneg, exp⟩ ++ rest : List Char)
              = '-' :: ((renderDigits int ++ renderFracPart frac ++
                  renderExpPart eneg exp) ++ rest) from by
            simp [JNumber.render]]
          rw [parseJson.eq_def]
          try simp only []
          rw [if_neg (by decide), if_neg (by decide), if_neg (by decide),
            if_neg (by decide)]
          rw [show ('-' :: ((renderDigits int ++ renderFracPart frac ++
                  renderExpPart eneg exp) ++ rest) : List Char)
              = JNumber.render ⟨true, int, frac, eneg, exp⟩ ++ rest from by
            simp [JNumber.render]]
          rw [hnum]
          rfl
        | false =>
          rw [show (JNumber.render ⟨false, int, frac, eneg, exp⟩ ++ rest : List Char)
              = digitChar d0 :: ((List.map digitChar int2 ++ renderFracPart frac ++
                  renderExpPart eneg exp) ++ rest) from by
            simp [JNumber.render, hd0, renderDigits]]
          rw [parseJson.eq_def]
          try simp only []
          rw [if_neg (by exact_mod_cast hne.2.2.2.2.2.1),
            if_neg (by exact_mod_cast hne.2.2.2.2.2.2.1),
            if_neg (by exact_mod_cast hne.2.2.2.2.2.2.2.1),
            if_neg (by exact_mod_cast hne.2.2.2.2.2.2.2.2)]
          rw [show (digitChar d0 :: ((List.map digitChar int2 ++ renderFracPart frac ++
                  renderExpPart eneg exp) ++ rest) : List Char)
              = JNumber.render ⟨false, int, frac, eneg, exp⟩ ++ rest from by
            simp [JNumber.render, hd0, renderDigits]]
          rw [hnum]
          rfl
      | bool b =>
        cases b with
        | true =>
          rw [Json.render]
          rw [show ((if (true : Bool) then ['t', 'r', 'u', 'e']
              else ['f', 'a', 'l', 's', 'e']) ++ rest : List Char)
              = 't' :: 'r' :: 'u' :: 'e' :: rest from by simp]
          rw [parseJson.eq_def]
          simp [show ('t' : Char) ≠ lbrace from by decide]
        | false =>
          rw [Json.render]
          rw [show ((if (false : Bool) then ['t', 'r', 'u', 'e']
              else ['f', 'a', 'l', 's', 'e']) ++ rest : List Char)
              = 'f' :: 'a' :: 'l' :: 's' :: 'e' :: rest from by simp]
          rw [parseJson.eq_def]
          simp [show ('f' : Char) ≠ lbrace from by decide]
      | obj fields =>
        rw [Json.render]
        rw [show ((lbrace :: renderFields fields ++ [rbrace]) ++ rest : List Char)
            = lbrace :: (renderFields fields ++ rbrace :: rest) from by
          simp]
        rw [parseJson.eq_def]
        try simp only []
        rw [if_neg (by decide)]
        rw [if_pos trivial]
        cases hfs : fields with
        | nil =>
          rw [show renderFields [] = ([] : List Char) from rfl, List.nil_append]
          try simp only []
          rw [if_pos trivial]
        | cons f frest =>
          obtain ⟨k, v⟩ := f
          have hqsize : fieldsSize ((k, v) :: frest) ≤ fuel := by
            have h := hs
            rw [hfs] at h
            simp only [Json.fsize] at h
            omega
          have hq := ih.2 ((k, v) :: frest) rest (hfs ▸ hwf) (by simp) hqsize
          rw [show renderFields ((k, v) :: frest) ++ rbrace :: rest
              = '"' :: ((match frest with
                | [] => (k.flatMap escapeChar ++ ['"']) ++ ':' :: Json.render v
                | _ :: _ => (k.flatMap escapeChar ++ ['"']) ++ ':' :: Json.render v
                    ++ ',' :: renderFields frest) ++ rbrace :: rest) from by
            cases frest <;>
              simp [renderFields, renderString, List.append_assoc]]
          try simp only []
          rw [if_neg (by decide)]
          rw [show ('"' :: ((match frest with
                | [] => (k.flatMap escapeChar ++ ['"']) ++ ':' :: Json.render v
                | _ :: _ => (k.flatMap escapeChar ++ ['"']) ++ ':' :: Json.render v
                    ++ ',' :: renderFields frest) ++ rbrace :: rest) : List Char)
              = renderFields ((k, v) :: frest) ++ rbrace :: rest from by
            cases frest <;>
              simp [renderFields, renderString, List.append_assoc]]
          rw [hq]
          rfl
    · intro fields rest hwf hne hs
      cases fields with
      | nil => exact absurd rfl hne
      | cons f frest =>
        obtain ⟨k, v⟩ := f
        have hwv : Json.wf v := by
          have h := hwf
          rw [show fieldsWf ((k, v) :: frest) = (Json.wf v ∧ fieldsWf frest) from by
            rw [fieldsWf]] at h
          exact h.1
        have hwrest : fieldsWf frest := by
          have h := hwf
          rw [show fieldsWf ((k, v) :: frest) = (Json.wf v ∧ fieldsWf frest) from by
            rw [fieldsWf]] at h
          exact h.2
        have hsize : Json.fsize v + fieldsSize frest + 1 ≤ fuel + 1 := by
          have h := hs
          rw [show fieldsSize ((k, v) :: frest) = 1 + Json.fsize v + fieldsSize frest
            from by rw [fieldsSize]] at h
          omega
        cases frest with
        | nil =>
          rw [show renderFields [(k, v)] ++ rbrace :: rest
              = '"' :: (k.flatMap escapeChar ++
                  ('"' :: (':' :: (Json.render v ++ rbrace :: rest)))) from by
            simp [renderFields, renderString, List.append_assoc]]
          rw [parseFields.eq_def]
          try simp only []
          rw [if_pos trivial]
          rw [parseStringBody_round]
          try simp only []
          rw [ih.1 v (rbrace :: rest) hwv (by
            have h2 := one_le_fieldsSize ([] : List (JString × Json))
            omega) (Or.inr rfl)]
          try simp only []
          rw [if_neg (by decide)]
          rw [if_pos trivial]
        | cons f2 frest2 =>
          rw [show renderFields ((k, v) :: f2 :: frest2) ++ rbrace :: rest
              = '"' :: (k.flatMap escapeChar ++
                  ('"' :: (':' :: (Json.render v ++
                    (',' :: (renderFields (f2 :: frest2) ++ rbrace :: rest)))))) from by
            simp [renderFields, renderString, List.append_assoc]]
          rw [parseFields.eq_def]
          try simp only []
          rw [if_pos trivial]
          rw [parseStringBody_round]
          try simp only []
          rw [ih.1 v (',' :: (renderFields (f2 :: frest2) ++ rbrace :: rest)) hwv
            (by
              have h2 := one_le_fieldsSize (f2 :: frest2)
              omega) (Or.inl rfl)]
          try simp only []
          rw [if_pos trivial]
          rw [ih.2 (f2 :: frest2) rest hwrest (by simp) (by
            have h2 := one_le_fsize v
            omega)]
          rfl

/-- The structural size bound is covered by the rendered length (so
`length + 1` fuel always suffices for rendered documents). -/
theorem fsize_le_render (m : Nat) :
    (∀ j : Json, Json.fsize j ≤ m → Json.fsize j ≤ j.render.length + 1) ∧
    (∀ fields : List (JString × Json), fieldsSize fields ≤ m →
      fieldsSize fields ≤ (renderFields fields).length + 1) := by
  induction m with
  | zero =>
    constructor
    · intro j hj
      exact absurd (le_trans (one_le_fsize j) hj) (by omega)
    · intro fields hf
      exact absurd (le_trans (one_le_fieldsSize fields) hf) (by omega)
  | succ m ih =>
    constructor
    · intro j hj
      cases j with
      | str s => simp [Json.fsize]
      | num n => simp [Json.fsize]
      | bool b => simp [Json.fsize]
      | obj fields =>
        have hj2 : fieldsSize fields ≤ m := by
          simp only [Json.fsize] at hj
          omega
        have hf := ih.2 fields hj2
        simp only [Json.fsize, Json.render]
        simp only [List.length_cons, List.length_append, List.length_singleton]
        omega
    · intro fields hf
      cases fields with
      | nil => simp [fieldsSize, renderFields]
      | cons f frest =>
        obtain ⟨k, v⟩ := f
        have hone := one_le_fieldsSize frest
        have honev := one_le_fsize v
        have hsz : fieldsSize ((k, v) :: frest) = 1 + Json.fsize v + fieldsSize frest := by
          rw [fieldsSize]
        have hv : Json.fsize v ≤ m := by omega
        have h1 := ih.1 v hv
        have hk : 2 ≤ (renderString k).length := by
          simp [renderString]
        cases frest with
        | nil =>
          have hrf : renderFields [(k, v)] = renderString k ++ ':' :: Json.render v := by
            rw [renderFields]
          rw [hsz, hrf]
          have hfe : fieldsSize ([] : List (JString × Json)) = 1 := by rw [fieldsSize]
          simp only [List.length_append, List.length_cons, hfe]
          omega
        | cons f2 frest2 =>
          have h2 := ih.2 (f2 :: frest2) (by omega)
          have hrf : renderFields ((k, v) :: f2 :: frest2)
              = renderString k ++ ':' :: Json.render v ++ ',' :: renderFields (f2 :: frest2) := by
            rw [renderFields]
            simp
          rw [hsz, hrf]
          simp only [List.length_append, List.length_cons]
          omega

/-- Parse a complete JSON document (the whole input must be consumed);
`length + 1` fuel is always sufficient for rendered documents. -/
def parseDocument (input : List Char) : Option Json :=
  match parseJson (input.length + 1) input with
  | some (j, []) => some j
  | _ => none

/-- A rendered well-formed document parses back to itself. -/
theorem parseDocument_render (j : Json) (hwf : Json.wf j) :
    parseDocument j.render = some j := by
  have hsize : Json.fsize j ≤ j.render.length + 1 :=
    (fsize_le_render j.fsize).1 j le_rfl
  have h := (parseJson_round (j.render.length + 1)).1 j [] hwf hsize trivial
  rw [List.append_nil] at h
  rw [parseDocument, h]

/-- The decimal digits of a natural number, most significant first ("0" for
zero), as printed by `serde_json` for unsigned integers. -/
def natDigits (n : Nat) : List Nat :=
  if n = 0 then [0] else (Nat.digits 10 n).reverse

/-- Reassemble a natural number from decimal digits (most significant
first). -/
def digitsToNat (ds : List Nat) : Nat :=
  ds.foldl (fun a d => a * 10 + d) 0

/-- Folding digits from the least significant end computes `Nat.ofDigits`. -/
theorem foldr_digits_ofDigits (ds : List Nat) :
    List.foldr (fun x y => y * 10 + x) 0 ds = Nat.ofDigits 10 ds := by
  induction ds with
  | nil => simp [Nat.ofDigits]
  | cons d rest ih =>
    rw [List.foldr_cons, Nat.ofDigits_cons, ih]
    ring

/-- `digitsToNat` inverts `natDigits`. -/
theorem digitsToNat_natDigits (n : Nat) : digitsToNat (natDigits n) = n := by
  by_cases h : n = 0
  · subst h
    rfl
  · rw [natDigits, if_neg h, digitsToNat, List.foldl_reverse,
      foldr_digits_ofDigits]
    exact_mod_cast Nat.ofDigits_digits 10 n

/-- The digit list of a natural number is well-formed. -/
theorem natDigits_wf (n : Nat) :
    natDigits n ≠ [] ∧ (∀ d ∈ natDigits n, d < 10) ∧
      (1 < (natDigits n).length → (natDigits n).head? ≠ some 0) := by
  by_cases h : n = 0
  · subst h
    exact ⟨by decide, by decide, by decide⟩
  · rw [natDigits, if_neg h]
    refine ⟨by simpa using Nat.digits_ne_nil_iff_ne_zero.mpr h, ?_, ?_⟩
    · intro d hd
      exact Nat.digits_lt_base (by omega) (by simpa using hd)
    · intro _
      have hlast := Nat.getLast_digit_ne_zero 10 h
      intro hcon
      rw [List.head?_reverse] at hcon
      have hne : Nat.digits 10 n ≠ [] := by
        simpa using Nat.digits_ne_nil_iff_ne_zero.mpr h
      rw [List.getLast?_eq_getLast _ hne, Option.some_inj] at hcon
      exact hlast hcon

/-- The canonical JSON number of a natural number. -/
def natJNumber (n : Nat) : JNumber :=
  { intDigits := natDigits n }

/-- The canonical JSON value of a natural number. -/
def natJson (n : Nat) : Json := .num (natJNumber n)

/-- `natJNumber` is well-formed. -/
theorem natJNumber_wf (n : Nat) : (natJNumber n).wf := by
  obtain ⟨h1, h2, h3⟩ := natDigits_wf n
  exact ⟨h1, h2, by simp [natJNumber], by simp [natJNumber], h3,
    by simp [natJNumber], by simp [natJNumber]⟩

/-- Decode a JSON value as an unsigned integer below `bound` (as serde does
for the fixed-width integer types). -/
def natFromJson (bound : Nat) : Json → Option Nat
  | .num m =>
    if m.neg = false ∧ m.fracDigits = [] ∧ m.expDigits = [] then
      if digitsToNat m.intDigits < bound then some (digitsToNat m.intDigits) else none
    else none
  | _ => none

/-- Integers below the bound round-trip. -/
theorem natFromJson_natJson (bound n : Nat) (h : n < bound) :
    natFromJson bound (natJson n) = some n := by
  rw [natJson, natFromJson]
  rw [if_pos ⟨rfl, rfl, rfl⟩]
  rw [show (natJNumber n).intDigits = natDigits n from rfl, digitsToNat_natDigits]
  rw [if_pos h]

/-- Lowercase hex encoding of a byte list (`serde_with::hex::Hex`). -/
def bytesToHex (bs : List Nat) : JString :=
  bs.flatMap fun b => [hexChar (b / 16), hexChar (b % 16)]

/-- Decode a lowercase hex string back to bytes. -/
def hexToBytes : JString → Option (List Nat)
  | [] => some []
  | [_] => none
  | c1 :: c2 :: rest =>
    match hexVal c1, hexVal c2 with
    | some a, some b => (hexToBytes rest).map fun r => (a * 16 + b) :: r
    | _, _ => none

/-- Bytes round-trip through hex. -/
theorem hexToBytes_bytesToHex (bs : List Nat) (h : ∀ b ∈ bs, b < 256) :
    hexToBytes (bytesToHex bs) = some bs := by
  induction bs with
  | nil => rfl
  | cons b rest ih =>
    have hb : b < 256 := h b (by simp)
    have hdiv : b / 16 < 16 := by omega
    have hmod : b % 16 < 16 := Nat.mod_lt _ (by omega)
    have ih2 := ih fun x hx => h x (by simp [hx])
    rw [bytesToHex] at ih2 ⊢
    rw [List.flatMap_cons]
    simp only [List.cons_append, List.nil_append]
    rw [hexToBytes.eq_def]
    try simp only []
    rw [hexVal_hexChar _ hdiv, hexVal_hexChar _ hmod]
    try simp only []
    rw [ih2]
    rw [show b / 16 * 16 + b % 16 = b from by omega]
    rfl

/-- A field that is present only when the option is set
(`skip_serializing_none`). -/
def optField (key : JString) (o : Option Json) : List (JString × Json) :=
  match o with
  | some v => [(key, v)]
  | none => []

/-- Decode an optional field: absent means `None`. -/
def optDecode (o : Option Json) (dec : Json → Option α) : Option (Option α) :=
  match o with
  | none => some none
  | some j => (dec j).map some

/-- `jlookup` on an empty list. -/
theorem jlookup_nil (key : JString) : jlookup [] key = none := rfl

/-- `jlookup` finds the head field. -/
theorem jlookup_cons_eq (k : JString) (v : Json) (rest : List (JString × Json)) :
    jlookup ((k, v) :: rest) k = some v := by
  rw [jlookup]
  simp

/-- `jlookup` skips a head field with another key. -/
theorem jlookup_cons_ne (k key : JString) (v : Json) (rest : List (JString × Json))
    (h : k ≠ key) : jlookup ((k, v) :: rest) key = jlookup rest key := by
  rw [jlookup]
  simp [h]

/-- `jlookup` over an optional field with the same key, when the key does not
occur later. -/
theorem jlookup_optField_eq (key : JString) (o : Option Json)
    (rest : List (JString × Json)) (hrest : jlookup rest key = none) :
    jlookup (optField key o ++ rest) key = o := by
  cases o with
  | some v => rw [optField, List.cons_append, jlookup_cons_eq]
  | none => rw [optField, List.nil_append, hrest]

/-- `jlookup` skips an optional field with another key. -/
theorem jlookup_optField_ne (key key2 : JString) (o : Option Json)
    (rest : List (JString × Json)) (h : key ≠ key2) :
    jlookup (optField key o ++ rest) key2 = jlookup rest key2 := by
  cases o with
  | some v =>
    rw [optField, List.cons_append, jlookup_cons_ne _ _ _ _ h, List.nil_append]
  | none => rw [optField, List.nil_append]

/-- `optDecode` inverts an encoded optional field. -/
theorem optDecode_round {α : Type} (o : Option α) (enc : α → Json)
    (dec : Json → Option α) (h : ∀ x ∈ o, dec (enc x) = some x) :
    optDecode (o.map enc) dec = some o := by
  cases o with
  | none => rfl
  | some x => simp [optDecode, h x rfl]

/-- `jlookup` on a final optional field with the same key. -/
theorem jlookup_optField_self (key : JString) (o : Option Json) :
    jlookup (optField key o) key = o := by
  cases o with
  | some v => rw [optField, jlookup_cons_eq]
  | none => rfl

/-- `jlookup` on a final optional field with another key. -/
theorem jlookup_optField_other (key key2 : JString) (o : Option Json)
    (h : key ≠ key2) : jlookup (optField key o) key2 = none := by
  cases o with
  | some v => rw [optField, jlookup_cons_ne _ _ _ _ h, jlookup_nil]
  | none => rfl

/-- Upper bound of `u8`. -/
def U8 : Nat := 256

/-- Upper bound of `u32`. -/
def U32 : Nat := 4294967296

/-- Upper bound of `u64`. -/
def U64 : Nat := 18446744073709551616

/-- `moq_lite::Track` (`model/track.rs`): name and priority (`u8`); serde
derives use the plain field names. -/
structure MoqTrack where
  name : JString
  priority : Nat
  deriving DecidableEq, Repr

/-- `Container` from `hang/src/catalog/container.rs`: internally tagged on
`"kind"`, variants `legacy` and `cmaf { timescale: u64, trackId: u32 }`. -/
inductive Container where
  | legacy
  | cmaf (timescale : Nat) (track_id : Nat)
  deriving DecidableEq, Repr

/-- `Display` from `hang/src/catalog/video/mod.rs`: width and height
(`u32`). -/
structure Display where
  width : Nat
  height : Nat
  deriving DecidableEq, Repr

/-- `VideoConfig` from `hang/src/catalog/video/mod.rs`.

The codec is a canonical codec string (modelled from the spec: the codec
types of `video/codec.rs` etc. are absent from the snapshot; §6.2 has
`"codec": "<canonical codec str>"`, serialized via `DisplayFromStr`).
`framerate` is `Option<f64>`, embedded as its printed decimal form
(`JNumber`); `jitter` is `Option<moq_lite::Time>`, modelled from the spec as
integer milliseconds. -/
structure VideoConfig where
  codec : JString
  description : Option (List Nat) := none
  coded_width : Option Nat := none
  coded_height : Option Nat := none
  display_ratio_width : Option Nat := none
  display_ratio_height : Option Nat := none
  bitrate : Option Nat := none
  framerate : Option JNumber := none
  optimize_for_latency : Option Bool := none
  container : Container := .legacy
  jitter : Option Nat := none
  deriving Repr

/-- `AudioConfig` from `hang/src/catalog/audio/mod.rs` (the channel count is
serialized as `"numberOfChannels"`). -/
structure AudioConfig where
  codec : JString
  sample_rate : Nat
  channel_count : Nat
  bitrate : Option Nat := none
  description : Option (List Nat) := none
  container : Container := .legacy
  jitter : Option Nat := none
  deriving Repr

/-- `Video` from `hang/src/catalog/video/mod.rs`: a `BTreeMap` of renditions
(embedded as a key-sorted association list) plus optional display, rotation
(`f64`, embedded as its printed decimal form) and flip. -/
structure Video where
  renditions : List (JString × VideoConfig) := []
  display : Option Display := none
  rotation : Option JNumber := none
  flip : Option Bool := none
  deriving Repr

/-- `Audio` from `hang/src/catalog/audio/mod.rs`. -/
structure Audio where
  renditions : List (JString × AudioConfig) := []
  deriving Repr

/-- Modelled from the spec: `hang/src/catalog/user.rs` is absent from the
snapshot; §6.2 shows `"user"?: {...}`, an optional JSON object, so the
embedding keeps the object's fields opaquely. -/
structure User where
  fields : List (JString × Json)
  deriving Repr

/-- Modelled from the spec: `hang/src/catalog/chat.rs` is absent from the
snapshot; §6.2 shows `"chat"?: {...}`, an optional JSON object. -/
structure Chat where
  fields : List (JString × Json)
  deriving Repr

/-- `Catalog` from `hang/src/catalog/root.rs`: video and audio (always
serialized), optional user, chat and preview track; `skip_serializing_none`
drops absent options and fields serialize in declaration order. -/
structure Catalog where
  video : Video := {}
  audio : Audio := {}
  user : Option User := none
  chat : Option Chat := none
  preview : Option MoqTrack := none
  deriving Repr

/-- Serde serialization of `Container` (`#[serde(tag = "kind")]`). -/
def Container.toJson : Container → Json
  | .legacy => .obj [("kind".toList, .str "legacy".toList)]
  | .cmaf timescale track_id =>
    .obj [("kind".toList, .str "cmaf".toList),
      ("timescale".toList, natJson timescale),
      ("trackId".toList, natJson track_id)]

/-- Serde serialization of `Display`. -/
def Display.toJson (d : Display) : Json :=
  .obj [("width".toList, natJson d.width), ("height".toList, natJson d.height)]

/-- Serde serialization of `MoqTrack`. -/
def MoqTrack.toJson (t : MoqTrack) : Json :=
  .obj [("name".toList, .str t.name), ("priority".toList, natJson t.priority)]

/-- Serde serialization of `VideoConfig` (camelCase keys, `None` options
skipped, hex-encoded description). -/
def VideoConfig.toJson (c : VideoConfig) : Json :=
  .obj ([("codec".toList, Json.str c.codec)] ++
    optField ("description".toList) (c.description.map fun bs => .str (bytesToHex bs)) ++
    optField ("codedWidth".toList) (c.coded_width.map natJson) ++
    optField ("codedHeight".toList) (c.coded_height.map natJson) ++
    optField ("displayRatioWidth".toList) (c.display_ratio_width.map natJson) ++
    optField ("displayRatioHeight".toList) (c.display_ratio_height.map natJson) ++
    optField ("bitrate".toList) (c.bitrate.map natJson) ++
    optField ("framerate".toList) (c.framerate.map Json.num) ++
    optField ("optimizeForLatency".toList) (c.optimize_for_latency.map Json.bool) ++
    ([("container".toList, c.container.toJson)] ++
      optField ("jitter".toList) (c.jitter.map natJson)))

/-- Serde serialization of `AudioConfig`. -/
def AudioConfig.toJson (c : AudioConfig) : Json :=
  .obj ([("codec".toList, Json.str c.codec),
      ("sampleRate".toList, natJson c.sample_rate),
      ("numberOfChannels".toList, natJson c.channel_count)] ++
    optField ("bitrate".toList) (c.bitrate.map natJson) ++
    optField ("description".toList) (c.description.map fun bs => .str (bytesToHex bs)) ++
    ([("container".toList, c.container.toJson)] ++
      optField ("jitter".toList) (c.jitter.map natJson)))

/-- Serde serialization of `Video`. -/
def Video.toJson (v : Video) : Json :=
  .obj ([("renditions".toList,
      Json.obj (v.renditions.map fun r => (r.1, r.2.toJson)))] ++
    optField ("display".toList) (v.display.map Display.toJson) ++
    optField ("rotation".toList) (v.rotation.map Json.num) ++
    optField ("flip".toList) (v.flip.map Json.bool))

/-- Serde serialization of `Audio`. -/
def Audio.toJson (a : Audio) : Json :=
  .obj [("renditions".toList,
    Json.obj (a.renditions.map fun r => (r.1, r.2.toJson)))]

/-- Serde serialization of `User` (opaque object). -/
def User.toJson (u : User) : Json := .obj u.fields

/-- Serde serialization of `Chat` (opaque object). -/
def Chat.toJson (c : Chat) : Json := .obj c.fields

/-- Serde serialization of `Catalog`. -/
def Catalog.toJson (c : Catalog) : Json :=
  .obj ([("video".toList, c.video.toJson), ("audio".toList, c.audio.toJson)] ++
    optField ("user".toList) (c.user.map User.toJson) ++
    optField ("chat".toList) (c.chat.map Chat.toJson) ++
    optField ("preview".toList) (c.preview.map MoqTrack.toJson))

/-- Bound invariants of the Rust integer types inside `Container`. -/
def Container.wfC : Container → Prop
  | .legacy => True
  | .cmaf timescale track_id => timescale < U64 ∧ track_id < U32

/-- Bound invariants of `Display` (`u32` fields). -/
def Display.wfC (d : Display) : Prop := d.width < U32 ∧ d.height < U32

/-- Bound invariant of `MoqTrack` (`u8` priority). -/
def MoqTrack.wfC (t : MoqTrack) : Prop := t.priority < U8

/-- Value invariants of `VideoConfig`: byte-valued description, fixed-width
integer bounds, and printed-form float fields. -/
def VideoConfig.wfC (c : VideoConfig) : Prop :=
  (∀ bs ∈ c.description, ∀ b ∈ bs, b < 256) ∧
    (∀ w ∈ c.coded_width, w < U32) ∧ (∀ h ∈ c.coded_height, h < U32) ∧
    (∀ w ∈ c.display_ratio_width, w < U32) ∧
    (∀ h ∈ c.display_ratio_height, h < U32) ∧
    (∀ b ∈ c.bitrate, b < U64) ∧ (∀ f ∈ c.framerate, f.wf) ∧
    c.container.wfC ∧ (∀ j ∈ c.jitter, j < U64)

/-- Value invariants of `AudioConfig`. -/
def AudioConfig.wfC (c : AudioConfig) : Prop :=
  c.sample_rate < U32 ∧ c.channel_count < U32 ∧
    (∀ b ∈ c.bitrate, b < U64) ∧ (∀ bs ∈ c.description, ∀ b ∈ bs, b < 256) ∧
    c.container.wfC ∧ (∀ j ∈ c.jitter, j < U64)

/-- Value invariants of `Video`, including the `BTreeMap` key ordering of the
renditions. -/
def Video.wfC (v : Video) : Prop :=
  (∀ r ∈ v.renditions, r.2.wfC) ∧
    List.Chain' (fun a b => List.Lex (· < ·) a.1 b.1) v.renditions ∧
    (∀ d ∈ v.display, d.wfC) ∧ (∀ r ∈ v.rotation, r.wf)

/-- Value invariants of `Audio`. -/
def Audio.wfC (a : Audio) : Prop :=
  (∀ r ∈ a.renditions, r.2.wfC) ∧
    List.Chain' (fun x b => List.Lex (· < ·) x.1 b.1) a.renditions

/-- Value invariants of `Catalog`. -/
def Catalog.wfC (c : Catalog) : Prop :=
  c.video.wfC ∧ c.audio.wfC ∧ (∀ u ∈ c.user, fieldsWf u.fields) ∧
    (∀ x ∈ c.chat, fieldsWf x.fields) ∧ (∀ t ∈ c.preview, t.wfC)

/-- Decode a JSON number verbatim. -/
def jnumDecode : Json → Option JNumber
  | .num m => some m
  | _ => none

/-- Decode a JSON boolean. -/
def boolDecode : Json → Option Bool
  | .bool b => some b
  | _ => none

/-- Decode a hex string to bytes. -/
def hexStrDecode : Json → Option (List Nat)
  | .str s => hexToBytes s
  | _ => none

/-- Serde deserialization of `Container`. -/
def Container.fromJson : Json → Option Container
  | .obj fields =>
    match jlookup fields ("kind".toList) with
    | some (.str k) =>
      if k = "legacy".toList then some .legacy
      else if k = "cmaf".toList then
        match jlookup fields ("timescale".toList), jlookup fields ("trackId".toList) with
        | some tj, some ij =>
          match natFromJson U64 tj, natFromJson U32 ij with
          | some t, some i => some (.cmaf t i)
          | _, _ => none
        | _, _ => none
      else none
    | _ => none
  | _ => none

/-- Serde deserialization of `Display`. -/
def Display.fromJson : Json → Option Display
  | .obj fields =>
    match jlookup fields ("width".toList), jlookup fields ("height".toList) with
    | some wj, some hj =>
      match natFromJson U32 wj, natFromJson U32 hj with
      | some w, some h => some ⟨w, h⟩
      | _, _ => none
    | _, _ => none
  | _ => none

/-- Serde deserialization of `MoqTrack`. -/
def MoqTrack.fromJson : Json → Option MoqTrack
  | .obj fields =>
    match jlookup fields ("name".toList), jlookup fields ("priority".toList) with
    | some (.str n), some pj =>
      match natFromJson U8 pj with
      | some p => some ⟨n, p⟩
      | none => none
    | _, _ => none
  | _ => none

/-- Serde deserialization of `VideoConfig`: missing `Option` fields become
`None`, a missing container defaults to `legacy`. -/
def VideoConfig.fromJson (j : Json) : Option VideoConfig := do
  let Json.obj fields := j | failure
  let some (Json.str codec) := jlookup fields ("codec".toList) | failure
  let description ← optDecode (jlookup fields ("description".toList)) hexStrDecode
  let coded_width ← optDecode (jlookup fields ("codedWidth".toList)) (natFromJson U32)
  let coded_height ← optDecode (jlookup fields ("codedHeight".toList)) (natFromJson U32)
  let display_ratio_width ←
    optDecode (jlookup fields ("displayRatioWidth".toList)) (natFromJson U32)
  let display_ratio_height ←
    optDecode (jlookup fields ("displayRatioHeight".toList)) (natFromJson U32)
  let bitrate ← optDecode (jlookup fields ("bitrate".toList)) (natFromJson U64)
  let framerate ← optDecode (jlookup fields ("framerate".toList)) jnumDecode
  let optimize_for_latency ←
    optDecode (jlookup fields ("optimizeForLatency".toList)) boolDecode
  let container ← match jlookup fields ("container".toList) with
    | some cj => Container.fromJson cj
    | none => some Container.legacy
  let jitter ← optDecode (jlookup fields ("jitter".toList)) (natFromJson U64)
  some (VideoConfig.mk codec description coded_width coded_height
    display_ratio_width display_ratio_height bitrate framerate
    optimize_for_latency container jitter)

/-- Serde deserialization of `AudioConfig`. -/
def AudioConfig.fromJson (j : Json) : Option AudioConfig := do
  let Json.obj fields := j | failure
  let some (Json.str codec) := jlookup fields ("codec".toList) | failure
  let some srj := jlookup fields ("sampleRate".toList) | failure
  let some sample_rate := natFromJson U32 srj | failure
  let some ccj := jlookup fields ("numberOfChannels".toList) | failure
  let some channel_count := natFromJson U32 ccj | failure
  let bitrate ← optDecode (jlookup fields ("bitrate".toList)) (natFromJson U64)
  let description ← optDecode (jlookup fields ("description".toList)) hexStrDecode
  let container ← match jlookup fields ("container".toList) with
    | some cj => Container.fromJson cj
    | none => some Container.legacy
  let jitter ← optDecode (jlookup fields ("jitter".toList)) (natFromJson U64)
  some (AudioConfig.mk codec sample_rate channel_count bitrate description
    container jitter)

/-- Decode a rendition map entry-wise. -/
def decodeRenditions {α : Type} (dec : Json → Option α) :
    List (JString × Json) → Option (List (JString × α))
  | [] => some []
  | (k, vj) :: rest =>
    match dec vj, decodeRenditions dec rest with
    | some v, some r => some ((k, v) :: r)
    | _, _ => none

/-- Serde deserialization of `Video` (the rendition map is required). -/
def Video.fromJson (j : Json) : Option Video := do
  let Json.obj fields := j | failure
  let some (Json.obj rjs) := jlookup fields ("renditions".toList) | failure
  let renditions ← decodeRenditions VideoConfig.fromJson rjs
  let display ← optDecode (jlookup fields ("display".toList)) Display.fromJson
  let rotation ← optDecode (jlookup fields ("rotation".toList)) jnumDecode
  let flip ← optDecode (jlookup fields ("flip".toList)) boolDecode
  some (Video.mk renditions display rotation flip)

/-- Serde deserialization of `Audio`. -/
def Audio.fromJson (j : Json) : Option Audio := do
  let Json.obj fields := j | failure
  let some (Json.obj rjs) := jlookup fields ("renditions".toList) | failure
  let renditions ← decodeRenditions AudioConfig.fromJson rjs
  some (Audio.mk renditions)

/-- Deserialization of the opaque `User` object. -/
def User.fromJson : Json → Option User
  | .obj fields => some ⟨fields⟩
  | _ => none

/-- Deserialization of the opaque `Chat` object. -/
def Chat.fromJson : Json → Option Chat
  | .obj fields => some ⟨fields⟩
  | _ => none

/-- Serde deserialization of `Catalog` (`#[serde(default)]`: missing video or
audio default to empty). -/
def Catalog.fromJson (j : Json) : Option Catalog := do
  let Json.obj fields := j | failure
  let video ← match jlookup fields ("video".toList) with
    | some vj => Video.fromJson vj
    | none => some {}
  let audio ← match jlookup fields ("audio".toList) with
    | some aj => Audio.fromJson aj
    | none => some {}
  let user ← optDecode (jlookup fields ("user".toList)) User.fromJson
  let chat ← optDecode (jlookup fields ("chat".toList)) Chat.fromJson
  let preview ← optDecode (jlookup fields ("preview".toList)) MoqTrack.fromJson
  some (Catalog.mk video audio user chat preview)

/-- `Catalog::to_string` (`root.rs`): serialize the catalog to compact JSON
(`serde_json::to_string`). -/
def Catalog.to_string (c : Catalog) : List Char := c.toJson.render

/-- `Catalog::from_str` (`root.rs`): parse a catalog from a string
(`serde_json::from_str`); `none` is the error case. -/
def Catalog.from_str (s : List Char) : Option Catalog :=
  (parseDocument s).bind Catalog.fromJson

/-- `Container` deserialization inverts serialization. -/
theorem Container_round (c : Container) (h : c.wfC) :
    Container.fromJson c.toJson = some c := by
  cases c with
  | legacy =>
    rw [Container.toJson, Container.fromJson]
    simp +decide [jlookup_cons_eq, jlookup_cons_ne]
  | cmaf timescale track_id =>
    obtain ⟨ht, hi⟩ := h
    rw [Container.toJson, Container.fromJson]
    simp +decide [jlookup_cons_eq, jlookup_cons_ne,
      natFromJson_natJson _ _ ht, natFromJson_natJson _ _ hi]

/-- `Display` deserialization inverts serialization. -/
theorem Display_round (d : Display) (h : d.wfC) :
    Display.fromJson d.toJson = some d := by
  obtain ⟨hw, hh⟩ := h
  rw [Display.toJson, Display.fromJson]
  simp +decide [jlookup_cons_eq, jlookup_cons_ne,
    natFromJson_natJson _ _ hw, natFromJson_natJson _ _ hh]

/-- `MoqTrack` deserialization inverts serialization. -/
theorem MoqTrack_round (t : MoqTrack) (h : t.wfC) :
    MoqTrack.fromJson t.toJson = some t := by
  rw [MoqTrack.toJson, MoqTrack.fromJson]
  simp +decide [jlookup_cons_eq, jlookup_cons_ne, natFromJson_natJson _ _ h]

/-- `VideoConfig` deserialization inverts serialization. -/
theorem VideoConfig_round (c : VideoConfig) (h : c.wfC) :
    VideoConfig.fromJson c.toJson = some c := by
  obtain ⟨hdesc, hcw, hch, hdrw, hdrh, hbr, hfr, hcont, hjit⟩ := h
  have edesc : optDecode
      (Option.map (fun bs => Json.str (bytesToHex bs)) c.description) hexStrDecode
      = some c.description :=
    optDecode_round _ _ _ fun bs hbs => by
      simp [hexStrDecode, hexToBytes_bytesToHex bs (hdesc bs hbs)]
  have ecw : optDecode (Option.map natJson c.coded_width) (natFromJson U32)
      = some c.coded_width :=
    optDecode_round _ _ _ fun x hx => natFromJson_natJson U32 x (hcw x hx)
  have ech : optDecode (Option.map natJson c.coded_height) (natFromJson U32)
      = some c.coded_height :=
    optDecode_round _ _ _ fun x hx => natFromJson_natJson U32 x (hch x hx)
  have edrw : optDecode (Option.map natJson c.display_ratio_width) (natFromJson U32)
      = some c.display_ratio_width :=
    optDecode_round _ _ _ fun x hx => natFromJson_natJson U32 x (hdrw x hx)
  have edrh : optDecode (Option.map natJson c.display_ratio_height) (natFromJson U32)
      = some c.display_ratio_height :=
    optDecode_round _ _ _ fun x hx => natFromJson_natJson U32 x (hdrh x hx)
  have ebr : optDecode (Option.map natJson c.bitrate) (natFromJson U64)
      = some c.bitrate :=
    optDecode_round _ _ _ fun x hx => natFromJson_natJson U64 x (hbr x hx)
  have efr : optDecode (Option.map Json.num c.framerate) jnumDecode
      = some c.framerate :=
    optDecode_round _ _ _ fun x _ => rfl
  have eofl : optDecode (Option.map Json.bool c.optimize_for_latency) boolDecode
      = some c.optimize_for_latency :=
    optDecode_round _ _ _ fun x _ => rfl
  have econt := Container_round c.container hcont
  have ejit : optDecode (Option.map natJson c.jitter) (natFromJson U64)
      = some c.jitter :=
    optDecode_round _ _ _ fun x hx => natFromJson_natJson U64 x (hjit x hx)
  rw [VideoConfig.toJson, VideoConfig.fromJson]
  simp +decide [jlookup_cons_eq, jlookup_cons_ne, jlookup_optField_eq,
    jlookup_optField_ne, jlookup_optField_self, jlookup_optField_other,
    jlookup_nil, edesc, ecw, ech, edrw, edrh, ebr, efr, eofl, econt, ejit]

/-- `AudioConfig` deserialization inverts serialization. -/
theorem AudioConfig_round (c : AudioConfig) (h : c.wfC) :
    AudioConfig.fromJson c.toJson = some c := by
  obtain ⟨hsr, hcc, hbr, hdesc, hcont, hjit⟩ := h
  have edesc : optDecode
      (Option.map (fun bs => Json.str (bytesToHex bs)) c.description) hexStrDecode
      = some c.description :=
    optDecode_round _ _ _ fun bs hbs => by
      simp [hexStrDecode, hexToBytes_bytesToHex bs (hdesc bs hbs)]
  have ebr : optDecode (Option.map natJson c.bitrate) (natFromJson U64)
      = some c.bitrate :=
    optDecode_round _ _ _ fun x hx => natFromJson_natJson U64 x (hbr x hx)
  have econt := Container_round c.container hcont
  have ejit : optDecode (Option.map natJson c.jitter) (natFromJson U64)
      = some c.jitter :=
    optDecode_round _ _ _ fun x hx => natFromJson_natJson U64 x (hjit x hx)
  rw [AudioConfig.toJson, AudioConfig.fromJson]
  simp +decide [jlookup_cons_eq, jlookup_cons_ne, jlookup_optField_eq,
    jlookup_optField_ne, jlookup_optField_self, jlookup_optField_other,
    jlookup_nil, edesc, ebr, econt, ejit,
    natFromJson_natJson _ _ hsr, natFromJson_natJson _ _ hcc]

/-- Entry-wise rendition decoding inverts encoding. -/
theorem decodeRenditions_round {α : Type} (enc : α → Json) (dec : Json → Option α)
    (l : List (JString × α)) (h : ∀ r ∈ l, dec (enc r.2) = some r.2) :
    decodeRenditions dec (l.map fun r => (r.1, enc r.2)) = some l := by
  induction l with
  | nil => rfl
  | cons r rest ih =>
    obtain ⟨k, v⟩ := r
    rw [List.map_cons, decodeRenditions]
    rw [h (k, v) (by simp)]
    rw [ih fun x hx => h x (by simp [hx])]

/-- `Video` deserialization inverts serialization. -/
theorem Video_round (v : Video) (h : v.wfC) :
    Video.fromJson v.toJson = some v := by
  obtain ⟨hr, _, hd, hrot⟩ := h
  have er := decodeRenditions_round VideoConfig.toJson VideoConfig.fromJson
    v.renditions fun r hrr => VideoConfig_round r.2 (hr r hrr)
  have ed : optDecode (Option.map Display.toJson v.display) Display.fromJson
      = some v.display :=
    optDecode_round _ _ _ fun d hd2 => Display_round d (hd d hd2)
  have erot : optDecode (Option.map Json.num v.rotation) jnumDecode
      = some v.rotation :=
    optDecode_round _ _ _ fun x _ => rfl
  have efl : optDecode (Option.map Json.bool v.flip) boolDecode = some v.flip :=
    optDecode_round _ _ _ fun x _ => rfl
  rw [Video.toJson, Video.fromJson]
  simp +decide [jlookup_cons_eq, jlookup_cons_ne, jlookup_optField_eq,
    jlookup_optField_ne, jlookup_optField_self, jlookup_optField_other,
    jlookup_nil, er, ed, erot, efl]

/-- `Audio` deserialization inverts serialization. -/
theorem Audio_round (a : Audio) (h : a.wfC) :
    Audio.fromJson a.toJson = some a := by
  obtain ⟨hr, _⟩ := h
  have er := decodeRenditions_round AudioConfig.toJson AudioConfig.fromJson
    a.renditions fun r hrr => AudioConfig_round r.2 (hr r hrr)
  rw [Audio.toJson, Audio.fromJson]
  simp +decide [jlookup_cons_eq, er]

/-- `Catalog` deserialization inverts serialization. -/
theorem Catalog_fromJson_toJson (c : Catalog) (h : c.wfC) :
    Catalog.fromJson c.toJson = some c := by
  obtain ⟨hv, ha, hu, hch, hp⟩ := h
  have ev := Video_round c.video hv
  have ea := Audio_round c.audio ha
  have eu : optDecode (Option.map User.toJson c.user) User.fromJson = some c.user :=
    optDecode_round _ _ _ fun u _ => rfl
  have ech : optDecode (Option.map Chat.toJson c.chat) Chat.fromJson = some c.chat :=
    optDecode_round _ _ _ fun x _ => rfl
  have ep : optDecode (Option.map MoqTrack.toJson c.preview) MoqTrack.fromJson
      = some c.preview :=
    optDecode_round _ _ _ fun t ht => MoqTrack_round t (hp t ht)
  rw [Catalog.toJson, Catalog.fromJson]
  simp +decide [jlookup_cons_eq, jlookup_cons_ne, jlookup_optField_eq,
    jlookup_optField_ne, jlookup_optField_self, jlookup_optField_other,
    jlookup_nil, ev, ea, eu, ech, ep]

/-- The empty field list is well-formed. -/
theorem fieldsWf_nil : fieldsWf ([] : List (JString × Json)) := by
  rw [fieldsWf]
  trivial

/-- `fieldsWf` of a cons. -/
theorem fieldsWf_cons (k : JString) (v : Json) (rest : List (JString × Json)) :
    fieldsWf ((k, v) :: rest) ↔ Json.wf v ∧ fieldsWf rest := by
  rw [show fieldsWf ((k, v) :: rest) = (Json.wf v ∧ fieldsWf rest) from by
    rw [fieldsWf]]

/-- Everything in a mapped option is well-formed when the function produces
well-formed values. -/
theorem wf_map_opt {α : Type} (f : α → Json) (o : Option α)
    (h : ∀ x ∈ o, Json.wf (f x)) : ∀ j ∈ Option.map f o, Json.wf j := by
  intro j hj
  cases o with
  | none => simp at hj
  | some x =>
    simp at hj
    exact hj ▸ h x rfl

/-- `fieldsWf` distributes over append. -/
theorem fieldsWf_append (l1 l2 : List (JString × Json)) :
    fieldsWf (l1 ++ l2) ↔ fieldsWf l1 ∧ fieldsWf l2 := by
  induction l1 with
  | nil =>
    rw [List.nil_append]
    simp [fieldsWf_nil]
  | cons f rest ih =>
    obtain ⟨k, v⟩ := f
    rw [List.cons_append, fieldsWf_cons, fieldsWf_cons, ih]
    tauto

/-- `fieldsWf` of an optional field. -/
theorem fieldsWf_optField (key : JString) (o : Option Json)
    (h : ∀ j ∈ o, Json.wf j) : fieldsWf (optField key o) := by
  cases o with
  | none => exact fieldsWf_nil
  | some j =>
    rw [optField]
    exact (fieldsWf_cons _ _ _).mpr ⟨h j rfl, fieldsWf_nil⟩

/-- Strings are well-formed values. -/
theorem Json_wf_str (s : JString) : Json.wf (.str s) := by rw [Json.wf]; trivial

/-- Booleans are well-formed values. -/
theorem Json_wf_bool (b : Bool) : Json.wf (.bool b) := by rw [Json.wf]; trivial

/-- A number value is well-formed when its printed form is. -/
theorem Json_wf_num (n : JNumber) (h : n.wf) : Json.wf (.num n) := by
  rw [Json.wf]; exact h

/-- An object is well-formed when its fields are. -/
theorem Json_wf_obj (fields : List (JString × Json)) (h : fieldsWf fields) :
    Json.wf (.obj fields) := by
  rw [Json.wf]; exact h

/-- `natJson` is well-formed. -/
theorem Json_wf_natJson (n : Nat) : Json.wf (natJson n) :=
  Json_wf_num _ (natJNumber_wf n)

/-- `Container.toJson` is well-formed. -/
theorem Container_toJson_wf (c : Container) : Json.wf c.toJson := by
  cases c with
  | legacy =>
    rw [Container.toJson]
    exact Json_wf_obj _ ((fieldsWf_cons _ _ _).mpr ⟨Json_wf_str _, fieldsWf_nil⟩)
  | cmaf t i =>
    rw [Container.toJson]
    refine Json_wf_obj _ ((fieldsWf_cons _ _ _).mpr ⟨Json_wf_str _, ?_⟩)
    refine (fieldsWf_cons _ _ _).mpr ⟨Json_wf_natJson _, ?_⟩
    exact (fieldsWf_cons _ _ _).mpr ⟨Json_wf_natJson _, fieldsWf_nil⟩

/-- `Display.toJson` is well-formed. -/
theorem Display_toJson_wf (d : Display) : Json.wf d.toJson := by
  rw [Display.toJson]
  refine Json_wf_obj _ ((fieldsWf_cons _ _ _).mpr ⟨Json_wf_natJson _, ?_⟩)
  exact (fieldsWf_cons _ _ _).mpr ⟨Json_wf_natJson _, fieldsWf_nil⟩

/-- `MoqTrack.toJson` is well-formed. -/
theorem MoqTrack_toJson_wf (t : MoqTrack) : Json.wf t.toJson := by
  rw [MoqTrack.toJson]
  refine Json_wf_obj _ ((fieldsWf_cons _ _ _).mpr ⟨Json_wf_str _, ?_⟩)
  exact (fieldsWf_cons _ _ _).mpr ⟨Json_wf_natJson _, fieldsWf_nil⟩

/-- `VideoConfig.toJson` is well-formed. -/
theorem VideoConfig_toJson_wf (c : VideoConfig) (h : c.wfC) :
    Json.wf c.toJson := by
  obtain ⟨_, _, _, _, _, _, hfr, hcont, _⟩ := h
  rw [VideoConfig.toJson]
  refine Json_wf_obj _ ?_
  simp only [List.singleton_append, List.cons_append, List.append_assoc,
    List.nil_append]
  rw [fieldsWf_cons]
  refine ⟨Json_wf_str _, ?_⟩
  rw [fieldsWf_append]
  refine ⟨fieldsWf_optField _ _ (wf_map_opt _ _ fun bs _ => Json_wf_str _), ?_⟩
  rw [fieldsWf_append]
  refine ⟨fieldsWf_optField _ _ (wf_map_opt _ _ fun x _ => Json_wf_natJson _), ?_⟩
  rw [fieldsWf_append]
  refine ⟨fieldsWf_optField _ _ (wf_map_opt _ _ fun x _ => Json_wf_natJson _), ?_⟩
  rw [fieldsWf_append]
  refine ⟨fieldsWf_optField _ _ (wf_map_opt _ _ fun x _ => Json_wf_natJson _), ?_⟩
  rw [fieldsWf_append]
  refine ⟨fieldsWf_optField _ _ (wf_map_opt _ _ fun x _ => Json_wf_natJson _), ?_⟩
  rw [fieldsWf_append]
  refine ⟨fieldsWf_optField _ _ (wf_map_opt _ _ fun x _ => Json_wf_natJson _), ?_⟩
  rw [fieldsWf_append]
  refine ⟨fieldsWf_optField _ _ (wf_map_opt _ _ fun x hx => Json_wf_num _ (hfr x hx)), ?_⟩
  rw [fieldsWf_append]
  refine ⟨fieldsWf_optField _ _ (wf_map_opt _ _ fun x _ => Json_wf_bool _), ?_⟩
  rw [fieldsWf_cons]
  refine ⟨Container_toJson_wf _, ?_⟩
  exact fieldsWf_optField _ _ (wf_map_opt _ _ fun x _ => Json_wf_natJson _)

/-- `AudioConfig.toJson` is well-formed. -/
theorem AudioConfig_toJson_wf (c : AudioConfig) (h : c.wfC) :
    Json.wf c.toJson := by
  obtain ⟨_, _, _, _, hcont, _⟩ := h
  rw [AudioConfig.toJson]
  refine Json_wf_obj _ ?_
  simp only [List.singleton_append, List.cons_append, List.append_assoc,
    List.nil_append]
  rw [fieldsWf_cons]
  refine ⟨Json_wf_str _, ?_⟩
  rw [fieldsWf_cons]
  refine ⟨Json_wf_natJson _, ?_⟩
  rw [fieldsWf_cons]
  refine ⟨Json_wf_natJson _, ?_⟩
  rw [fieldsWf_append]
  refine ⟨fieldsWf_optField _ _ (wf_map_opt _ _ fun x _ => Json_wf_natJson _), ?_⟩
  rw [fieldsWf_append]
  refine ⟨fieldsWf_optField _ _ (wf_map_opt _ _ fun bs _ => Json_wf_str _), ?_⟩
  rw [fieldsWf_cons]
  refine ⟨Container_toJson_wf _, ?_⟩
  exact fieldsWf_optField _ _ (wf_map_opt _ _ fun x _ => Json_wf_natJson _)

/-- A rendition map serializes to well-formed fields. -/
theorem renditions_toJson_wf {α : Type} (enc : α → Json)
    (l : List (JString × α)) (h : ∀ r ∈ l, Json.wf (enc r.2)) :
    fieldsWf (l.map fun r => (r.1, enc r.2)) := by
  induction l with
  | nil => exact fieldsWf_nil
  | cons r rest ih =>
    rw [List.map_cons]
    exact (fieldsWf_cons _ _ _).mpr
      ⟨h r (by simp), ih fun x hx => h x (by simp [hx])⟩

/-- `Video.toJson` is well-formed. -/
theorem Video_toJson_wf (v : Video) (h : v.wfC) : Json.wf v.toJson := by
  obtain ⟨hr, _, hd, hrot⟩ := h
  rw [Video.toJson]
  refine Json_wf_obj _ ?_
  simp only [List.singleton_append, List.cons_append, List.append_assoc,
    List.nil_append]
  rw [fieldsWf_cons]
  refine ⟨Json_wf_obj _ (renditions_toJson_wf _ _ fun r hrr =>
    VideoConfig_toJson_wf r.2 (hr r hrr)), ?_⟩
  rw [fieldsWf_append]
  refine ⟨fieldsWf_optField _ _ (wf_map_opt _ _ fun d hd2 => Display_toJson_wf d), ?_⟩
  rw [fieldsWf_append]
  refine ⟨fieldsWf_optField _ _ (wf_map_opt _ _ fun x hx => Json_wf_num _ (hrot x hx)), ?_⟩
  exact fieldsWf_optField _ _ (wf_map_opt _ _ fun x _ => Json_wf_bool _)

/-- `Audio.toJson` is well-formed. -/
theorem Audio_toJson_wf (a : Audio) (h : a.wfC) : Json.wf a.toJson := by
  obtain ⟨hr, _⟩ := h
  rw [Audio.toJson]
  refine Json_wf_obj _ ?_
  exact (fieldsWf_cons _ _ _).mpr
    ⟨Json_wf_obj _ (renditions_toJson_wf _ _ fun r hrr =>
      AudioConfig_toJson_wf r.2 (hr r hrr)), fieldsWf_nil⟩

/-- `Catalog.toJson` is well-formed. -/
theorem Catalog_toJson_wf (c : Catalog) (h : c.wfC) : Json.wf c.toJson := by
  obtain ⟨hv, ha, hu, hch, hp⟩ := h
  rw [Catalog.toJson]
  refine Json_wf_obj _ ?_
  simp only [List.singleton_append, List.cons_append, List.append_assoc,
    List.nil_append]
  rw [fieldsWf_cons]
  refine ⟨Video_toJson_wf _ hv, ?_⟩
  rw [fieldsWf_cons]
  refine ⟨Audio_toJson_wf _ ha, ?_⟩
  rw [fieldsWf_append]
  refine ⟨fieldsWf_optField _ _ (wf_map_opt _ _ fun u hu2 =>
    Json_wf_obj _ (hu u hu2)), ?_⟩
  rw [fieldsWf_append]
  refine ⟨fieldsWf_optField _ _ (wf_map_opt _ _ fun x hx =>
    Json_wf_obj _ (hch x hx)), ?_⟩
  exact fieldsWf_optField _ _ (wf_map_opt _ _ fun t ht => MoqTrack_toJson_wf t)

/-- A concrete catalog mirroring the repository's `root.rs` test document:
one H.264 video rendition at 1280x720 with framerate 30.0, one Opus audio
rendition at 48 kHz stereo. -/
def catalogWitness : Catalog :=
  { video :=
      { renditions :=
          [("video".toList,
            { codec := "avc1.64001f".toList
              coded_width := some 1280
              coded_height := some 720
              bitrate := some 6000000
              framerate := some ⟨false, [3, 0], [0], false, []⟩ })] }
    audio :=
      { renditions :=
          [("audio".toList,
            { codec := "opus".toList
              sample_rate := 48000
              channel_count := 2
              bitrate := some 128000 })] } }

/-- The witness catalog satisfies the value invariants. -/
theorem catalogWitness_wf : catalogWitness.wfC := by
  refine ⟨⟨?_, ?_, ?_, ?_⟩, ⟨?_, ?_⟩, ?_, ?_, ?_⟩ <;>
    simp [catalogWitness, VideoConfig.wfC, AudioConfig.wfC, Container.wfC,
      JNumber.wf, U32, U64]

end Hang

section CatalogTheorems

/-- Claim C9: serializing a catalog with `Catalog::to_string` and parsing the
result with `Catalog::from_str` yields the original catalog, for every
catalog satisfying the value invariants of its Rust field types (integer
bounds, byte-valued descriptions, printed-decimal float fields, BTreeMap key
order). -/
theorem C9_catalog_roundtrip (c : Hang.Catalog) (h : c.wfC) :
    Hang.Catalog.from_str (Hang.Catalog.to_string c) = some c := by
  rw [Hang.Catalog.to_string, Hang.Catalog.from_str]
  rw [Hang.parseDocument_render _ (Hang.Catalog_toJson_wf c h)]
  rw [Option.some_bind]
  exact Hang.Catalog_fromJson_toJson c h

/-- Claim C9 witness: the concrete two-rendition catalog round-trips. -/
theorem C9_catalog_roundtrip_witness :
    Hang.Catalog.from_str (Hang.Catalog.to_string Hang.catalogWitness) =
      some Hang.catalogWitness :=
  C9_catalog_roundtrip Hang.catalogWitness Hang.catalogWitness_wf

end CatalogTheorems


namespace Hang

/-- The serialized catalog document as frame bytes (unicode scalar values of
the JSON text; the real frame carries its UTF-8 encoding). -/
def Catalog.serializedFrame (c : Catalog) : List Nat :=
  (Catalog.to_string c).map Char.toNat

/-- `CatalogGuard` from `hang/src/catalog/producer.rs`: the locked document,
the wrapped catalog `TrackProducer` state, and the `updated` flag. -/
structure CatalogGuard where
  catalog : Catalog
  track : Moq.TrackState
  updated : Bool

/-- `CatalogProducer::lock`: the guard starts with `updated = false`. -/
def CatalogProducer.lock (catalog : Catalog) (track : Moq.TrackState) : CatalogGuard :=
  { catalog := catalog, track := track, updated := false }

/-- `DerefMut::deref_mut` for `CatalogGuard`: any mutable access sets
`updated` and exposes the document (`f` is whatever the caller does with the
mutable reference, possibly the identity). -/
def CatalogGuard.deref_mut (g : CatalogGuard) (f : Catalog → Catalog) : CatalogGuard :=
  { g with updated := true, catalog := f g.catalog }

/-- `Drop::drop` for `CatalogGuard`: without `updated` the track is left
untouched; with `updated`, serialize the document and `write_frame` it (one
appended group holding that single frame). `none` is the `append_group`
panic on a closed track. -/
def CatalogGuard.dropGuard (g : CatalogGuard) (now : Nat) : Option Moq.TrackState :=
  if !g.updated then some g.track
  else Moq.TrackProducer.write_frame g.track now (Catalog.serializedFrame g.catalog)

end Hang

section CatalogGuardTheorems

/-- Claim C7 counterexample: the claim says a group is appended if and only
if the document was modified. Taking the mutable reference without changing
the document (`deref_mut` with the identity) leaves the document equal to the
original, yet releasing the guard appends a group: at the empty open track
and the default catalog, the dropped guard's track has one group while the
document is unchanged. -/
theorem C7_unmodified_document_still_published :
    ∃ t : Moq.TrackState,
      Hang.CatalogGuard.dropGuard
        (Hang.CatalogGuard.deref_mut (Hang.CatalogProducer.lock {} {}) id) 0 =
          some t ∧
      (Hang.CatalogGuard.deref_mut (Hang.CatalogProducer.lock {} {}) id).catalog
        = (Hang.CatalogProducer.lock {} {}).catalog ∧
      t.groups.length = 1 ∧ ({} : Moq.TrackState).groups.length = 0 :=
  ⟨_, rfl, rfl, rfl, rfl⟩

/-- Claim C7 (amended): releasing the catalog guard publishes if and only if
the document was mutably accessed (`updated`, set by `DerefMut`): on release
after a mutable access, exactly one group is appended and it carries exactly
one frame, the serialized catalog; on release without mutable access the
track state is unchanged. -/
theorem C7_guard_publish (c0 : Hang.Catalog) (t : Moq.TrackState) (now : Nat) :
    (Hang.CatalogGuard.dropGuard (Hang.CatalogProducer.lock c0 t) now = some t) ∧
    (∀ g : Hang.CatalogGuard, g.updated = true → g.track.closed = none →
      ∃ t' gr, g.dropGuard now = some t' ∧
        t'.groups = (g.track.trim now).groups ++ [(now, gr)] ∧
        gr.frames = [Hang.Catalog.serializedFrame g.catalog]) := by
  constructor
  · rfl
  · intro g hupd hopen
    unfold Hang.CatalogGuard.dropGuard
    rw [hupd]
    rw [if_neg (by decide)]
    simp only [Moq.TrackProducer.write_frame, Moq.TrackProducer.append_group,
      hopen, Option.isSome_none, Bool.false_eq_true, if_false, Option.map_some']
    refine ⟨_,
      { sequence := match (g.track.trim now).max_sequence with
          | some q => q + 1
          | none => 0,
        frames := [Hang.Catalog.serializedFrame g.catalog] }, rfl, ?_, rfl⟩
    rw [List.dropLast_concat]

/-- Claim C7 witness: at a concrete updated guard over an open one-group
track, exactly one single-frame group is appended. -/
theorem C7_guard_publish_witness :
    ∃ t' gr,
      Hang.CatalogGuard.dropGuard
        (Hang.CatalogGuard.deref_mut
          (Hang.CatalogProducer.lock {}
            { groups := [(0, { sequence := 0 })], max_sequence := some 0 }) id) 5 =
        some t' ∧
      t'.groups =
        (Moq.TrackState.trim
          { groups := [(0, { sequence := 0 })], max_sequence := some 0 } 5).groups ++
          [(5, gr)] ∧
      gr.frames = [Hang.Catalog.serializedFrame {}] :=
  (C7_guard_publish {}
    { groups := [(0, { sequence := 0 })], max_sequence := some 0 } 5).2
    (Hang.CatalogGuard.deref_mut
      (Hang.CatalogProducer.lock {}
        { groups := [(0, { sequence := 0 })], max_sequence := some 0 }) id)
    rfl rfl

end CatalogGuardTheorems

namespace Hang

/-- The model of the internal `GroupReader` of
`hang/src/container/consumer.rs`: its group's sequence number and the decoded
frame timestamps it has not yet delivered, in order. (A frame is identified by
its timestamp; buffered frames pop in the same order as unbuffered reads, so
the buffer is not modelled separately.) -/
structure GroupReader where
  sequence : Nat
  frames : List Nat
  deriving DecidableEq, Repr

/-- The loop state of `OrderedConsumer::read`: the optional current group,
the pending groups ordered by ascending sequence, and the playhead
`max_timestamp`. -/
structure OrderedConsumer where
  current : Option GroupReader := none
  pending : List GroupReader := []
  max_timestamp : Nat := 0
  deriving DecidableEq, Repr

/-- One firing of a branch of the `tokio::select!` in
`OrderedConsumer::read`: the current group yields a frame, the current group
ends, a new group arrives from `next_group`, or pending group `i`'s
`buffer_until(cutoff)` returns. -/
inductive OCEvent where
  | readFrame
  | currentEnded
  | newGroup (g : GroupReader)
  | bufferFired (i : Nat)
  deriving DecidableEq, Repr

/-- One iteration of the `OrderedConsumer::read` loop on the fired branch.
Returns the next state and the sequences of the groups discarded without
being delivered (`none` when the branch cannot fire at this state). Mirrors
consumer.rs lines 68-118: a read frame advances `max_timestamp`; a finished
current group promotes the head of `pending`; an arriving group is ignored if
older than current, else inserted at the partition point by ascending
sequence; a fired buffer (possible only when some frame of that pending group
reaches `max_timestamp + latency`) drains the older pending groups, discards
the current group, and promotes the fired group. -/
def OrderedConsumer.read_step (latency : Nat) (s : OrderedConsumer) :
    OCEvent → Option (OrderedConsumer × List Nat)
  | .readFrame =>
    match s.current with
    | some r =>
      match r.frames with
      | ts :: rest =>
        some ({ s with current := some { r with frames := rest },
                       max_timestamp := ts }, [])
      | [] => none
    | none => none
  | .currentEnded =>
    match s.current with
    | some r =>
      if r.frames = [] then
        some ({ s with current := s.pending.head?, pending := s.pending.tail }, [])
      else none
    | none => none
  | .newGroup g =>
    match s.current with
    | none => some ({ s with current := some g }, [])
    | some cur =>
      if g.sequence < cur.sequence then some (s, [g.sequence])
      else
        some ({ s with pending :=
          s.pending.takeWhile (fun p => p.sequence < g.sequence) ++
            g :: s.pending.dropWhile (fun p => p.sequence < g.sequence) }, [])
  | .bufferFired i =>
    match s.pending.get? i with
    | some p =>
      if p.frames.any (fun ts => decide (s.max_timestamp + latency ≤ ts)) then
        some ({ s with current := (s.pending.drop i).head?,
                       pending := (s.pending.drop i).tail },
          (match s.current with
            | some c => [c.sequence]
            | none => []) ++ (s.pending.take i).map GroupReader.sequence)
      else none
    | none => none

/-- A whole run of the `OrderedConsumer::read` loop over a schedule of branch
firings, accumulating every discarded group's sequence. -/
def OrderedConsumer.run (latency : Nat) (s : OrderedConsumer) :
    List OCEvent → Option (OrderedConsumer × List Nat)
  | [] => some (s, [])
  | e :: rest =>
    match OrderedConsumer.read_step latency s e with
    | some r => (OrderedConsumer.run latency r.1 rest).map fun r2 => (r2.1, r.2 ++ r2.2)
    | none => none

/-- The claim's side conditions at one state, before one event: every pending
group's frames are within `latency` of the playhead (the claim's latency
hypothesis), and an arriving group is not older than the current one (the
spec's ordering guarantee: groups are delivered in ascending sequence
order). -/
def stepOk (latency : Nat) (s : OrderedConsumer) (e : OCEvent) : Bool :=
  (s.pending.all fun p =>
    p.frames.all fun ts => decide (ts < s.max_timestamp + latency)) &&
  (match e with
    | .newGroup g =>
      match s.current with
      | some c => decide (c.sequence ≤ g.sequence)
      | none => true
    | _ => true)

/-- `stepOk` at the state reached after the first `k` events of a run (`true`
when the run dies earlier or there is no `k`-th event). -/
def prefixOk (latency : Nat) (s : OrderedConsumer) (events : List OCEvent)
    (k : Nat) : Bool :=
  match OrderedConsumer.run latency s (events.take k), events.get? k with
  | some r, some e => stepOk latency r.1 e
  | _, _ => true

end Hang

namespace Hang

/-- A step whose side conditions hold discards nothing: the buffer-fired
branch is disabled by the latency condition, and the ignore-old-group branch
is disabled by ascending delivery. -/
theorem read_step_no_skip (latency : Nat) (s : OrderedConsumer) (e : OCEvent)
    (s2 : OrderedConsumer) (sk : List Nat)
    (hstep : OrderedConsumer.read_step latency s e = some (s2, sk))
    (hok : stepOk latency s e = true) : sk = [] := by
  have hok1 := (Bool.and_eq_true _ _ |>.mp hok).1
  have hok2 := (Bool.and_eq_true _ _ |>.mp hok).2
  cases e with
  | readFrame =>
    simp only [OrderedConsumer.read_step] at hstep
    split at hstep
    · split at hstep
      · simp only [Option.some.injEq, Prod.mk.injEq] at hstep
        exact hstep.2.symm
      · exact absurd hstep (by simp)
    · exact absurd hstep (by simp)
  | currentEnded =>
    simp only [OrderedConsumer.read_step] at hstep
    split at hstep
    · split at hstep
      · simp only [Option.some.injEq, Prod.mk.injEq] at hstep
        exact hstep.2.symm
      · exact absurd hstep (by simp)
    · exact absurd hstep (by simp)
  | newGroup g =>
    simp only [OrderedConsumer.read_step] at hstep
    split at hstep
    · simp only [Option.some.injEq, Prod.mk.injEq] at hstep
      exact hstep.2.symm
    · rename_i cur hc
      rw [hc] at hok2
      simp only [decide_eq_true_eq] at hok2
      split at hstep
      · omega
      · simp only [Option.some.injEq, Prod.mk.injEq] at hstep
        exact hstep.2.symm
  | bufferFired i =>
    simp only [OrderedConsumer.read_step] at hstep
    split at hstep
    · rename_i p hp
      split at hstep
      · rename_i hfire
        rw [List.any_eq_true] at hfire
        obtain ⟨ts, hts, hcut⟩ := hfire
        rw [List.all_eq_true] at hok1
        have := hok1 p (List.get?_mem hp)
        rw [List.all_eq_true] at this
        have := this ts hts
        simp only [decide_eq_true_eq] at this hcut
        omega
      · exact absurd hstep (by simp)
    · exact absurd hstep (by simp)

/-- A run all of whose steps satisfy their side conditions discards
nothing. -/
theorem run_no_skip (latency : Nat) :
    ∀ (events : List OCEvent) (s : OrderedConsumer),
      (∀ k, k < events.length → prefixOk latency s events k = true) →
      ∀ s2 sk, OrderedConsumer.run latency s events = some (s2, sk) → sk = []
  | [], _, _, _, _, hrun => by
    simp only [OrderedConsumer.run, Option.some.injEq, Prod.mk.injEq] at hrun
    exact hrun.2.symm
  | e :: rest, s, h, s2, sk, hrun => by
    rw [OrderedConsumer.run] at hrun
    cases hstep : OrderedConsumer.read_step latency s e with
    | none => rw [hstep] at hrun; exact absurd hrun (by simp)
    | some r =>
      rw [hstep] at hrun
      rw [Option.map_eq_some'] at hrun
      obtain ⟨r2, hr2, heq⟩ := hrun
      have hok0 : stepOk latency s e = true := by
        have h0 := h 0 (by simp)
        unfold prefixOk at h0
        rw [List.take_zero, List.get?_cons_zero] at h0
        rw [show OrderedConsumer.run latency s [] = some (s, []) from rfl] at h0
        exact h0
      have hsk1 : r.2 = [] := read_step_no_skip latency s e r.1 r.2
        (by rw [hstep]) hok0
      have hrest : ∀ k, k < rest.length → prefixOk latency r.1 rest k = true := by
        intro k hk
        have hk1 := h (k + 1) (by simp; omega)
        unfold prefixOk at hk1 ⊢
        rw [List.take_succ_cons, List.get?_cons_succ] at hk1
        rw [show OrderedConsumer.run latency s (e :: rest.take k) =
          (OrderedConsumer.run latency r.1 (rest.take k)).map
            (fun r2 => (r2.1, r.2 ++ r2.2)) from by
          simp only [OrderedConsumer.run, hstep]] at hk1
        cases htail : OrderedConsumer.run latency r.1 (rest.take k) with
        | none =>
          cases hg : rest.get? k <;> rfl
        | some rt =>
          rw [htail, Option.map_some'] at hk1
          cases hg : rest.get? k with
          | none => rfl
          | some ev =>
            rw [hg] at hk1
            exact hk1
      have htail : r2.2 = [] := run_no_skip latency rest r.1 hrest r2.1 r2.2
        (by rw [hr2])
      have : sk = r.2 ++ r2.2 := by
        have := congrArg Prod.snd heq
        simpa using this.symm
      rw [this, hsk1, htail]
      rfl

end Hang

section OrderedConsumerTheorems

/-- Claim C5: in every run of the `OrderedConsumer::read` loop in which (per
the latency hypothesis) every pending group's frame timestamps stay below
`max_timestamp + latency` and (per the spec's ordering guarantee) groups
arrive in ascending sequence order, no group is ever discarded; and in any
state whatsoever, the skip-to-pending branch can fire for pending group `i`
only when some frame of that group has timestamp at least
`max_timestamp + latency`. -/
theorem C5_ordered_consumer_no_skip (latency : Nat) (events : List Hang.OCEvent)
    (h : ∀ k, k < events.length → Hang.prefixOk latency {} events k = true) :
    (∀ s2 sk, Hang.OrderedConsumer.run latency {} events = some (s2, sk) →
      sk = []) ∧
    (∀ (s : Hang.OrderedConsumer) (i : Nat) s2 sk,
      Hang.OrderedConsumer.read_step latency s (.bufferFired i) = some (s2, sk) →
      ∃ p ∈ s.pending, ∃ ts ∈ p.frames, s.max_timestamp + latency ≤ ts) := by
  constructor
  · exact Hang.run_no_skip latency events {} h
  · intro s i s2 sk hstep
    simp only [Hang.OrderedConsumer.read_step] at hstep
    split at hstep
    · rename_i p hp
      split at hstep
      · rename_i hfire
        rw [List.any_eq_true] at hfire
        obtain ⟨ts, hts, hcut⟩ := hfire
        simp only [decide_eq_true_eq] at hcut
        exact ⟨p, List.get?_mem hp, ts, hts, hcut⟩
      · exact absurd hstep (by simp)
    · exact absurd hstep (by simp)

/-- Claim C5 witness: a concrete two-group schedule within the latency budget
(group 0's frame at 10, group 1's frame at 30, latency 100, group 1 arriving
while group 0 is current) runs to completion with nothing discarded. -/
theorem C5_ordered_consumer_no_skip_witness :
    (∀ s2 sk,
      Hang.OrderedConsumer.run 100 {}
        [Hang.OCEvent.newGroup ⟨0, [10]⟩, Hang.OCEvent.readFrame,
         Hang.OCEvent.newGroup ⟨1, [30]⟩, Hang.OCEvent.currentEnded,
         Hang.OCEvent.readFrame] = some (s2, sk) → sk = []) ∧
    Hang.OrderedConsumer.run 100 {}
      [Hang.OCEvent.newGroup ⟨0, [10]⟩, Hang.OCEvent.readFrame,
       Hang.OCEvent.newGroup ⟨1, [30]⟩, Hang.OCEvent.currentEnded,
       Hang.OCEvent.readFrame] = some (⟨some ⟨1, []⟩, [], 30⟩, []) :=
  ⟨(C5_ordered_consumer_no_skip 100
      [Hang.OCEvent.newGroup ⟨0, [10]⟩, Hang.OCEvent.readFrame,
       Hang.OCEvent.newGroup ⟨1, [30]⟩, Hang.OCEvent.currentEnded,
       Hang.OCEvent.readFrame] (by decide)).1,
    by decide⟩

end OrderedConsumerTheorems

namespace Hang

/-- Modelled from the spec: the QUIC varint of §4.1/§6.2 (1/2/4/8 bytes, a
2-bit length tag in the first byte); the `coding` module implementing
`Encode` for `Timescale` is absent from the snapshot. Bytes are `Nat < 256`.
-/
def VarInt.encode (n : Nat) : List Nat :=
  if n < 2 ^ 6 then [n]
  else if n < 2 ^ 14 then [64 + n / 2 ^ 8, n % 2 ^ 8]
  else if n < 2 ^ 30 then
    [128 + n / 2 ^ 24, n / 2 ^ 16 % 2 ^ 8, n / 2 ^ 8 % 2 ^ 8, n % 2 ^ 8]
  else
    [192 + n / 2 ^ 56, n / 2 ^ 48 % 2 ^ 8, n / 2 ^ 40 % 2 ^ 8,
      n / 2 ^ 32 % 2 ^ 8, n / 2 ^ 24 % 2 ^ 8, n / 2 ^ 16 % 2 ^ 8,
      n / 2 ^ 8 % 2 ^ 8, n % 2 ^ 8]

/-- Modelled from the spec: QUIC varint decoding, returning the value and the
remaining bytes. -/
def VarInt.decode : List Nat → Option (Nat × List Nat)
  | [] => none
  | b :: rest =>
    if b < 64 then some (b, rest)
    else if b < 128 then
      match rest with
      | b1 :: r => some ((b - 64) * 2 ^ 8 + b1, r)
      | [] => none
    else if b < 192 then
      match rest with
      | b1 :: b2 :: b3 :: r =>
        some ((b - 128) * 2 ^ 24 + b1 * 2 ^ 16 + b2 * 2 ^ 8 + b3, r)
      | _ => none
    else
      match rest with
      | b1 :: b2 :: b3 :: b4 :: b5 :: b6 :: b7 :: r =>
        some ((b - 192) * 2 ^ 56 + b1 * 2 ^ 48 + b2 * 2 ^ 40 + b3 * 2 ^ 32 +
          b4 * 2 ^ 24 + b5 * 2 ^ 16 + b6 * 2 ^ 8 + b7, r)
      | _ => none

/-- The varint round-trips on any value below `2^62` and leaves trailing
bytes untouched. -/
theorem VarInt.decode_encode (n : Nat) (h : n < 2 ^ 62) (rest : List Nat) :
    VarInt.decode (VarInt.encode n ++ rest) = some (n, rest) := by
  rw [VarInt.encode]
  by_cases h1 : n < 2 ^ 6
  · rw [if_pos h1]
    simp only [List.cons_append, List.nil_append, VarInt.decode]
    rw [if_pos (by omega)]
  · rw [if_neg h1]
    by_cases h2 : n < 2 ^ 14
    · rw [if_pos h2]
      simp only [List.cons_append, List.nil_append, VarInt.decode]
      rw [if_neg (by omega), if_pos (by omega)]
      simp only [Option.some.injEq, Prod.mk.injEq]
      constructor
      · omega
      · trivial
    · rw [if_neg h2]
      by_cases h3 : n < 2 ^ 30
      · rw [if_pos h3]
        simp only [List.cons_append, List.nil_append, VarInt.decode]
        rw [if_neg (by omega), if_neg (by omega), if_pos (by omega)]
        simp only [Option.some.injEq, Prod.mk.injEq]
        constructor
        · omega
        · trivial
      · rw [if_neg h3]
        simp only [List.cons_append, List.nil_append, VarInt.decode]
        rw [if_neg (by omega), if_neg (by omega), if_neg (by omega)]
        simp only [Option.some.injEq, Prod.mk.injEq]
        constructor
        · omega
        · trivial

/-- `Frame::encode` from `hang/src/container/frame.rs`: the frame's bytes on
the wire are the varint-encoded microsecond timestamp header followed by the
payload chunks. The `keyframe` flag is not written (the source's NOTE: "The
keyframe flag is ignored for this method"). -/
def Frame.encode (f : Frame) : List Nat :=
  VarInt.encode f.timestamp ++ f.payload

/-- The decoding core of `GroupReader::read_unbuffered`: decode the timestamp
header, take the rest as payload, and set `keyframe := (index == 0)` where
`index` is the number of frames already read from this group — the producer's
flag is not on the wire at all. -/
def read_unbuffered (index : Nat) (bytes : List Nat) : Option Frame :=
  (VarInt.decode bytes).map fun r =>
    { timestamp := r.1, keyframe := index == 0, payload := r.2 }

/-- Reading a whole group's frames through `read_unbuffered`, with `index`
incremented after each frame as in the source. -/
def readGroup (index : Nat) : List (List Nat) → Option (List Frame)
  | [] => some []
  | e :: rest =>
    match read_unbuffered index e with
    | some f => (readGroup (index + 1) rest).map (f :: ·)
    | none => none

/-- The given frames with every keyframe flag replaced by "this is frame
number zero of the group". -/
def markFirstKeyframe (idx : Nat) : List Frame → List Frame
  | [] => []
  | f :: rest => { f with keyframe := idx == 0 } :: markFirstKeyframe (idx + 1) rest

/-- Reading back an encoded group reconstructs exactly the original frames
with the keyframe flags overwritten by position. -/
theorem readGroup_encode :
    ∀ (fs : List Frame) (idx : Nat), (∀ f ∈ fs, f.timestamp < 2 ^ 62) →
      readGroup idx (fs.map Frame.encode) = some (markFirstKeyframe idx fs)
  | [], _, _ => rfl
  | f :: rest, idx, h => by
    rw [List.map_cons, readGroup, read_unbuffered, Frame.encode,
      VarInt.decode_encode f.timestamp (h f (by simp)) f.payload,
      Option.map_some']
    rw [readGroup_encode rest (idx + 1) (fun g hg => h g (by simp [hg]))]
    rfl

/-- Each marked frame keeps its timestamp and payload; its flag is purely
positional. -/
theorem markFirstKeyframe_get :
    ∀ (fs : List Frame) (idx i : Nat) (f2 : Frame),
      (markFirstKeyframe idx fs).get? i = some f2 →
      f2.keyframe = (idx + i == 0) ∧
        ∃ f1, fs.get? i = some f1 ∧
          f2.timestamp = f1.timestamp ∧ f2.payload = f1.payload
  | [], _, _, _, h => by simp [markFirstKeyframe] at h
  | f :: rest, idx, 0, f2, h => by
    rw [markFirstKeyframe, List.get?_cons_zero] at h
    obtain rfl := Option.some.inj h
    exact ⟨by simp, f, rfl, rfl, rfl⟩
  | f :: rest, idx, i + 1, f2, h => by
    rw [markFirstKeyframe, List.get?_cons_succ] at h
    obtain ⟨hk, f1, hf1, ht, hp⟩ := markFirstKeyframe_get rest (idx + 1) i f2 h
    refine ⟨by rw [hk]; congr 1; omega, f1, ?_, ht, hp⟩
    rw [List.get?_cons_succ]
    exact hf1

end Hang

section FrameCodecTheorems

/-- Claim C10: the keyframe flag is never written to the wire —
`Frame::encode` produces identical bytes whatever the flag is — and the
consumer reconstructs it positionally: reading back any encoded group yields
frames whose timestamps and payloads are the originals and whose keyframe
flag is true exactly on the first frame of the group (index 0), independent
of the flags the producer held. -/
theorem C10_keyframe_reconstructed (fs : List Hang.Frame)
    (h : ∀ f ∈ fs, f.timestamp < 2 ^ 62) :
    (∀ (f : Hang.Frame) (b : Bool),
      Hang.Frame.encode { f with keyframe := b } = Hang.Frame.encode f) ∧
    Hang.readGroup 0 (fs.map Hang.Frame.encode) =
      some (Hang.markFirstKeyframe 0 fs) ∧
    (∀ (i : Nat) (f2 : Hang.Frame),
      (Hang.markFirstKeyframe 0 fs).get? i = some f2 →
      f2.keyframe = decide (i = 0) ∧
        ∃ f1, fs.get? i = some f1 ∧
          f2.timestamp = f1.timestamp ∧ f2.payload = f1.payload) := by
  refine ⟨fun f b => rfl, Hang.readGroup_encode fs 0 h, fun i f2 hf2 => ?_⟩
  obtain ⟨hk, f1, hf1, ht, hp⟩ := Hang.markFirstKeyframe_get fs 0 i f2 hf2
  refine ⟨?_, f1, hf1, ht, hp⟩
  rw [hk]
  cases i <;> simp

/-- Claim C10 witness: a two-frame group whose producer flags are inverted
(first frame not marked, second marked) decodes with the flags reconstructed
as (true, false). -/
theorem C10_keyframe_reconstructed_witness :
    Hang.readGroup 0
      (([⟨100, false, [1, 2]⟩, ⟨200, true, [3]⟩] : List Hang.Frame).map
        Hang.Frame.encode) =
      some [⟨100, true, [1, 2]⟩, ⟨200, false, [3]⟩] := by
  have h := (C10_keyframe_reconstructed
    [⟨100, false, [1, 2]⟩, ⟨200, true, [3]⟩] (by decide)).2.1
  rw [h]
  rfl

end FrameCodecTheorems
